import Mathlib

/-!
Shallow embedding of the tag-state reconciliation engines of the
arr-searcher repository (`lidarr_missing_done.py`, `sonarr_missing_done.py`,
`radarr_missing_done.py`) and proofs of the frozen claims about them.

Modelling conventions:
* Timestamps are seconds since an arbitrary epoch (`Nat`); the Python
  code stores ISO strings and compares `datetime` values, which for the
  values the engine itself writes round-trips losslessly.
* Remote calls are modelled by environment functions: a `Bool`-valued
  function says whether a given call raises (the scripts catch those
  exceptions per item), an `Option`-valued function models a fetch that
  can fail.
* `random.shuffle` is modelled by an environment function producing the
  post-shuffle order; theorems that need it add a permutation hypothesis.
* Python `int(x)` applied to a raw JSON id is modelled by `RawId`
  together with per-script resolver functions (the scripts differ in how
  a missing / null / unparseable id behaves).
* Tag lists are modelled as `List Int` of already-parsed tag ids; the
  few places where the Python code coerces or skips non-integer tag
  entries are noted inline.
-/

namespace Arr

/-- Raw value of an `id` field in a backend payload, before `int(...)`:
present integer, integer-valued string, JSON null, absent key, or a value
that `int()` cannot parse. -/
inductive RawId where
  | missing
  | null
  | num (n : Int)
  | strNum (n : Int)
  | bad
deriving DecidableEq

/-- Resolution of an artist id in `lidarr_missing_done.py` line 313:
`int(a.get("id", 0) or 0)`.  A missing key or falsy value becomes `0`;
an unparseable truthy value raises `ValueError` (uncaught in `main`). -/
def resolveLidarrId : RawId → Except Unit Int
  | .missing => .ok 0
  | .null => .ok 0
  | .num n => .ok n
  | .strNum n => .ok n
  | .bad => .error ()

/-- Resolution of an id in `sonarr_missing_done.py` line 194
(`int(s["id"])`) and `radarr_missing_done.py` line 199
(`int(m.get("id"))`): a present integer or integer string parses; a
missing key (KeyError / `int(None)` TypeError), null, or unparseable
value raises, uncaught in `main`. -/
def resolveStrictId : RawId → Except Unit Int
  | .num n => .ok n
  | .strNum n => .ok n
  | _ => .error ()

/-- One persisted per-item history record
(`{"last_done_recheck_utc": ..., "last_done_searched_utc": ...}`). -/
structure HistRec where
  lastRecheck : Option Nat := none
  lastSearched : Option Nat := none
deriving DecidableEq

/-- The persisted state document, keyed by the item id
(`str(id)` in the JSON file; the string form is injective on ids). -/
def Hist := Int → HistRec

instance : Inhabited Hist := ⟨fun _ => {}⟩

/-- Python `sorted` on a list of ints (ascending). -/
def pySorted (l : List Int) : List Int :=
  List.insertionSort (· ≤ ·) l

/-- Python `sorted(list(set(l)))` / `sorted(set(l))` on ints: the sorted
list of the distinct elements. -/
def pySortedSet (l : List Int) : List Int :=
  pySorted l.dedup

/-- `replace_tag_list` from `lidarr_missing_done.py` lines 175-187: drop
every occurrence of `removeId`, append `addId` if absent, and return the
sorted set.  (The Python loop also skips tag entries that fail `int()`;
tag lists are modelled as already-parsed ints.) -/
def replace_tag_list (tagList : List Int) (removeId addId : Int) : List Int :=
  let out := tagList.filter (fun t => t ≠ removeId)
  let out2 := if addId ∈ out then out else out ++ [addId]
  pySortedSet out2

/-- `should_recheck` from `lidarr_missing_done.py` lines 190-199: given
the stored `last_done_recheck_utc` (already parsed; an absent or
unparseable value is `none`), the configured hours and the current time,
return whether the item is still inside the cooldown window, together
with the remaining seconds. -/
def should_recheck (lastIso : Option Nat) (hours : Nat) (asOf : Nat) :
    Bool × Option Nat :=
  match lastIso with
  | none => (false, none)
  | some t =>
    let nextOk := t + hours * 3600
    if asOf < nextOk then (true, some (nextOk - asOf)) else (false, none)

/-- `should_wait` from `sonarr_missing_done.py` lines 123-129 and
`radarr_missing_done.py` lines 146-152 (boolean-only variant of the
cooldown gate). -/
def should_wait (lastIso : Option Nat) (hours now : Nat) : Bool :=
  match lastIso with
  | none => false
  | some t => decide (now < t + hours * 3600)

/-- Effective per-run cap: `X if X > 0 else 10**9`
(`lidarr_missing_done.py` lines 306, 365-366; `sonarr_missing_done.py`
lines 181-182; `radarr_missing_done.py` lines 189-190). -/
def effCap (c : Int) : Nat :=
  if 0 < c then c.toNat else 10 ^ 9

/-- Effective episode budget: `X if X > 0 else 10**12`
(`sonarr_missing_done.py` line 183). -/
def effCapEps (c : Int) : Nat :=
  if 0 < c then c.toNat else 10 ^ 12

end Arr

namespace Lidarr

/-- One page of `/api/v1/wanted/missing` as `missing_artist_ids` parses it
(lines 234-269): a dict with a `records` list (each record yields an
artist id, or `none` if the record is not a dict / lacks `artistId` /
fails `int()`), an optional integer `totalRecords` and optional
`pageSize`; or a raw list (older Lidarr); or any other shape. -/
inductive Page where
  | dict (records : List (Option Int)) (total : Option Nat) (pageSize : Option Nat)
  | rawList (records : List (Option Int))
  | other
deriving DecidableEq

/-- Accumulate parsed artist ids from a page's records into the id set
(set semantics: duplicates ignored, malformed records skipped). -/
def addIds (acc : List Int) (records : List (Option Int)) : List Int :=
  records.foldl
    (fun a r =>
      match r with
      | some i => if i ∈ a then a else a ++ [i]
      | none => a)
    acc

/-- The paging loop of `missing_artist_ids` (lines 206-273), starting at
`page` with `fuel` pages left before `WANTED_MAX_PAGES` is exceeded.
`fetch page = none` means all retry attempts for that page failed, which
makes the whole function return `none` (line 231).  `tot` is the latched
`total_records`. -/
def goPages (fetch : Nat → Option Page) (pageSizeCfg : Nat) :
    Nat → Nat → Option Nat → List Int → Option (List Int)
  | 0, _, _, acc => some acc
  | fuel + 1, page, tot, acc =>
    match fetch page with
    | none => none
    | some (.dict records total psz) =>
      let acc2 := addIds acc records
      let tot2 := match tot with
        | some t => some t
        | none => total
      if records.length = 0 then some acc2
      else
        match tot2 with
        | some t =>
          let ps := psz.getD pageSizeCfg
          if t ≤ page * ps then some acc2
          else goPages fetch pageSizeCfg fuel (page + 1) tot2 acc2
        | none => goPages fetch pageSizeCfg fuel (page + 1) tot2 acc2
    | some (.rawList records) =>
      if records.length = 0 then some acc else some (addIds acc records)
    | some .other => some acc

/-- `missing_artist_ids` (lines 202-273): page through `/wanted/missing`
and return the set of artist ids with any missing album, or `none` if a
page could not be fetched after all retries. -/
def missing_artist_ids (fetch : Nat → Option Page) (maxPages pageSizeCfg : Nat) :
    Option (List Int) :=
  goPages fetch pageSizeCfg maxPages 1 none []

/-- A snapshot entry of `/api/v1/artist` as `main` uses it: the raw id
field and the tag id list.  (`artistName` is only logged.) -/
structure Artist where
  rid : Arr.RawId
  tags : List Int
deriving DecidableEq

/-- Environment-derived configuration of `lidarr_missing_done.py`. -/
structure Config where
  tagSearchId : Int
  tagDoneId : Int
  searchToDoneMax : Int
  doneRecheckMax : Int
  doneSearchMax : Int
  recheckHours : Nat
  wantedMaxPages : Nat
  wantedPageSize : Nat

/-- The outside world as the run observes it. -/
structure Env where
  /-- `wanted_missing_page` after the retry loop: `none` = retries exhausted. -/
  fetchPage : Nat → Option Page
  /-- Current backend tag list per artist id, as `artist_by_id` returns it. -/
  backendTags : Int → List Int
  /-- Whether the `artist_by_id` GET succeeds (an exception is caught at line 340). -/
  fetchArtistOk : Int → Bool
  /-- Whether the `update_artist` PUT succeeds (an exception is caught at line 340). -/
  putArtistOk : Int → Bool
  /-- Whether the `MissingAlbumSearch` command POST succeeds (caught at line 386). -/
  searchCmdOk : Int → Bool
  /-- Outcome of `random.shuffle(search_tagged)` (line 308). -/
  shuffleA : List Artist → List Artist
  /-- Outcome of `random.shuffle(eligible_done_missing)` (line 363); the
  paired artist names are only logged, so the order is carried on ids. -/
  shuffleB : List Int → List Int

/-- State threaded through Phase A (lines 305-341). -/
structure AState where
  /-- Backend tag state, updated by each successful `update_artist`. -/
  bt : Int → List Int
  flipped : Nat
  /-- Successful `update_artist` calls: artist id and the tag list written. -/
  writes : List (Int × List Int)

/-- Phase A loop (lines 310-341): for each shuffled SEARCH-tagged artist,
stop once `flipped` reaches the cap, silently drop non-positive ids, skip
artists that are missing, re-fetch the artist, rewrite SEARCH to DONE via
`replace_tag_list`, skip the PUT when the tag set would not change, and
count a flip only when the PUT succeeds.  An unparseable id raises out of
`main`. -/
def phaseAGo (cfg : Config) (env : Env) (missIds : List Int) :
    AState → List Artist → Except Unit AState
  | st, [] => .ok st
  | st, a :: rest =>
    if st.flipped ≥ Arr.effCap cfg.searchToDoneMax then .ok st
    else
      match Arr.resolveLidarrId a.rid with
      | .error e => .error e
      | .ok aid =>
        if aid ≤ 0 then phaseAGo cfg env missIds st rest
        else if aid ∈ missIds then phaseAGo cfg env missIds st rest
        else if env.fetchArtistOk aid then
          let cur := st.bt aid
          let newTags := Arr.replace_tag_list cur cfg.tagSearchId cfg.tagDoneId
          if Arr.pySortedSet cur = Arr.pySortedSet newTags then
            phaseAGo cfg env missIds st rest
          else if env.putArtistOk aid then
            phaseAGo cfg env missIds
              { bt := Function.update st.bt aid newTags
                flipped := st.flipped + 1
                writes := st.writes ++ [(aid, newTags)] } rest
          else phaseAGo cfg env missIds st rest
        else phaseAGo cfg env missIds st rest

/-- Modelled from the spec: Phase A promotion with the per-run cap
removed ("uncapped in the reference behavior"), used as the unbounded
reference point for the shuffle-before-cap and cap-disabling claims.
Identical to `phaseAGo` except that the `flipped >= max_flip` break is
gone. -/
def phaseANoCapGo (cfg : Config) (env : Env) (missIds : List Int) :
    AState → List Artist → Except Unit AState
  | st, [] => .ok st
  | st, a :: rest =>
    match Arr.resolveLidarrId a.rid with
    | .error e => .error e
    | .ok aid =>
      if aid ≤ 0 then phaseANoCapGo cfg env missIds st rest
      else if aid ∈ missIds then phaseANoCapGo cfg env missIds st rest
      else if env.fetchArtistOk aid then
        let cur := st.bt aid
        let newTags := Arr.replace_tag_list cur cfg.tagSearchId cfg.tagDoneId
        if Arr.pySortedSet cur = Arr.pySortedSet newTags then
          phaseANoCapGo cfg env missIds st rest
        else if env.putArtistOk aid then
          phaseANoCapGo cfg env missIds
            { bt := Function.update st.bt aid newTags
              flipped := st.flipped + 1
              writes := st.writes ++ [(aid, newTags)] } rest
        else phaseANoCapGo cfg env missIds st rest
      else phaseANoCapGo cfg env missIds st rest

/-- State of the Phase B eligibility pass (lines 344-361). -/
structure EligState where
  skipped : Nat
  elig : List Int

/-- Phase B eligibility pass (lines 347-361): walk every DONE-tagged
artist, silently drop non-positive ids, keep only artists the oracle
reported missing, and defer (count as `done_wait_skipped`) those still
inside the recheck cooldown, reading the pre-run history. -/
def eligGo (missIds : List Int) (hist0 : Arr.Hist) (hours now : Nat) :
    EligState → List Artist → Except Unit EligState
  | st, [] => .ok st
  | st, a :: rest =>
    match Arr.resolveLidarrId a.rid with
    | .error e => .error e
    | .ok aid =>
      if aid ≤ 0 then eligGo missIds hist0 hours now st rest
      else if aid ∈ missIds then
        if (Arr.should_recheck (hist0 aid).lastRecheck hours now).1 then
          eligGo missIds hist0 hours now { st with skipped := st.skipped + 1 } rest
        else
          eligGo missIds hist0 hours now { st with elig := st.elig ++ [aid] } rest
      else eligGo missIds hist0 hours now st rest

/-- State of the Phase B considered/searched loop (lines 368-387). -/
structure BState where
  hist : Arr.Hist
  considered : Nat
  searched : Nat
  consideredIds : List Int
  searchedIds : List Int

/-- Phase B considered/searched loop (lines 371-387): stop once
`considered` reaches the recheck cap; every considered artist is stamped
`last_done_recheck_utc = now` unconditionally, then the search command is
attempted only while under the search cap, and only a successful command
stamps `last_done_searched_utc = now`. -/
def consideredGo (cfg : Config) (env : Env) (now : Nat) :
    BState → List Int → BState
  | st, [] => st
  | st, aid :: rest =>
    if st.considered ≥ Arr.effCap cfg.doneRecheckMax then st
    else
      let st1 : BState :=
        { st with
          hist := Function.update st.hist aid
            { st.hist aid with lastRecheck := some now }
          considered := st.considered + 1
          consideredIds := st.consideredIds ++ [aid] }
      if st1.searched ≥ Arr.effCap cfg.doneSearchMax then
        consideredGo cfg env now st1 rest
      else if env.searchCmdOk aid then
        consideredGo cfg env now
          { st1 with
            hist := Function.update st1.hist aid
              { st1.hist aid with lastSearched := some now }
            searched := st1.searched + 1
            searchedIds := st1.searchedIds ++ [aid] } rest
      else consideredGo cfg env now st1 rest

/-- Modelled from the spec: the considered/searched loop with both
per-run caps removed, used as the unbounded reference point for the
cap-disabling claim.  Identical to `consideredGo` except that the
recheck-cap break and the search-cap guard are gone. -/
def consideredNoCapGo (env : Env) (now : Nat) :
    BState → List Int → BState
  | st, [] => st
  | st, aid :: rest =>
    let st1 : BState :=
      { st with
        hist := Function.update st.hist aid
          { st.hist aid with lastRecheck := some now }
        considered := st.considered + 1
        consideredIds := st.consideredIds ++ [aid] }
    if env.searchCmdOk aid then
      consideredNoCapGo env now
        { st1 with
          hist := Function.update st1.hist aid
            { st1.hist aid with lastSearched := some now }
          searched := st1.searched + 1
          searchedIds := st1.searchedIds ++ [aid] } rest
    else consideredNoCapGo env now st1 rest

/-- Observable outcome of one `main` run. -/
structure RunResult where
  /-- Final backend tag state. -/
  tags : Int → List Int
  /-- Successful `update_artist` calls (artist id, tags written). -/
  tagWrites : List (Int × List Int)
  flipped : Nat
  doneWaitSkipped : Nat
  /-- `eligible_done_missing` before the shuffle, by artist id. -/
  eligIds : List Int
  considered : Nat
  searched : Nat
  consideredIds : List Int
  searchedIds : List Int
  /-- Final in-memory state (`state` dict). -/
  hist : Arr.Hist
  /-- What `atomic_write_json` persisted; `none` when the run returned
  before writing (the state file is left untouched). -/
  written : Option Arr.Hist

instance : Inhabited RunResult :=
  ⟨{ tags := fun _ => [], tagWrites := [], flipped := 0, doneWaitSkipped := 0
     eligIds := [], considered := 0, searched := 0, consideredIds := []
     searchedIds := [], hist := default, written := none }⟩

/-- `main` of `lidarr_missing_done.py` (lines 276-394), from the point
where the artist list has been fetched and the two tag ids resolved:
compute tag membership from the snapshot, query the oracle (returning
early with no mutation when it is unavailable), run Phase A on the
shuffled SEARCH-tagged artists, run the Phase B eligibility pass and the
shuffled considered/searched loop, and persist the state file. -/
def run (cfg : Config) (env : Env) (hist0 : Arr.Hist) (now : Nat)
    (artists : List Artist) : Except Unit RunResult :=
  let searchTagged := artists.filter (fun a => cfg.tagSearchId ∈ a.tags)
  let doneTagged := artists.filter (fun a => cfg.tagDoneId ∈ a.tags)
  match missing_artist_ids env.fetchPage cfg.wantedMaxPages cfg.wantedPageSize with
  | none =>
    .ok { tags := env.backendTags, tagWrites := [], flipped := 0
          doneWaitSkipped := 0, eligIds := [], considered := 0, searched := 0
          consideredIds := [], searchedIds := [], hist := hist0, written := none }
  | some missIds =>
    match phaseAGo cfg env missIds
        { bt := env.backendTags, flipped := 0, writes := [] }
        (env.shuffleA searchTagged) with
    | .error e => .error e
    | .ok aSt =>
      match eligGo missIds hist0 cfg.recheckHours now
          { skipped := 0, elig := [] } doneTagged with
      | .error e => .error e
      | .ok eSt =>
        let bSt := consideredGo cfg env now
          { hist := hist0, considered := 0, searched := 0
            consideredIds := [], searchedIds := [] }
          (env.shuffleB eSt.elig)
        .ok { tags := aSt.bt, tagWrites := aSt.writes, flipped := aSt.flipped
              doneWaitSkipped := eSt.skipped, eligIds := eSt.elig
              considered := bSt.considered, searched := bSt.searched
              consideredIds := bSt.consideredIds, searchedIds := bSt.searchedIds
              hist := bSt.hist, written := some bSt.hist }

end Lidarr

namespace Sonarr

/-- Fuel-driven body of `chunked`; the fuel starts at the list length and
strictly bounds the recursion depth, keeping the definition structurally
recursive (so that it evaluates by reduction). -/
def chunkedGo : Nat → List Int → Nat → List (List Int)
  | _, [], _ => []
  | _, _ :: _, 0 => []
  | 0, _ :: _, _ + 1 => []
  | fuel + 1, x :: xs, n + 1 =>
    (x :: xs).take (n + 1) :: chunkedGo fuel ((x :: xs).drop (n + 1)) (n + 1)

/-- `chunked` from `sonarr_missing_done.py` lines 131-132:
`[xs[i:i+n] for i in range(0, len(xs), n)]`.  All call sites use
`n = 100`; `n = 0` would raise in Python and is mapped to `[]` here. -/
def chunked (l : List Int) (n : Nat) : List (List Int) :=
  chunkedGo l.length l n

/-- Run the chunk-dispatch loop of lines 222-228 starting at chunk index
`i`: returns `(ok_any, episodes dispatched)` where an episode counts as
dispatched exactly when its chunk's `EpisodeSearch` POST succeeded. -/
def runChunks (ok : Nat → Bool) : Nat → List (List Int) → Bool × Nat
  | _, [] => (false, 0)
  | i, c :: rest =>
    if ok i then (true, c.length + (runChunks ok (i + 1) rest).2)
    else runChunks ok (i + 1) rest

/-- An `/api/v3/episode` record as `missing_aired_episode_ids` reads it:
`monitored` (default true), `hasFile` (default false), the parsed air
date (`none` when both date fields are absent or unparseable), and the
episode id. -/
structure Episode where
  monitored : Bool
  hasFile : Bool
  air : Option Nat
  epId : Int
deriving DecidableEq

/-- `missing_aired_episode_ids` (lines 110-121): ids of monitored,
file-less episodes whose air date is known and not in the future. -/
def missing_aired_episode_ids (eps : List Episode) (asOf : Nat) : List Int :=
  (eps.filter fun ep =>
      ep.monitored && !ep.hasFile &&
        match ep.air with
        | none => false
        | some a => decide (a ≤ asOf)).map
    (fun ep => ep.epId)

/-- A `/api/v3/series` snapshot entry: raw id field and tag id list. -/
structure Series where
  rid : Arr.RawId
  tags : List Int
deriving DecidableEq

/-- Environment-derived configuration of `sonarr_missing_done.py`. -/
structure Config where
  tagSearchId : Int
  tagDoneId : Int
  recheckHours : Nat
  recheckMaxSeries : Int
  searchMaxSeries : Int
  searchMaxEps : Int

/-- The outside world as the sonarr run observes it. -/
structure Env where
  /-- `list_episodes` per series id; `none` = the GET raised (caught). -/
  listEpisodes : Int → Option (List Episode)
  /-- Whether the `update_series_tags` PUT succeeds (caught at line 175). -/
  putSeriesOk : Int → Bool
  /-- Whether the `EpisodeSearch` POST for chunk index `k` of series
  `sid` succeeds (caught at line 227). -/
  chunkOk : Int → Nat → Bool
  /-- Outcome of `random.shuffle(done_tagged)` (line 179). -/
  shuffleDone : List Series → List Series

/-- State of the promotion loop (lines 155-176). -/
structure PromState where
  searchToDone : Nat
  /-- Successful `update_series_tags` calls (series id, tags written). -/
  writes : List (Int × List Int)

/-- Promotion loop (lines 156-176): for every SEARCH-tagged series in
listing order (no shuffle, no cap), list its episodes (skipping the
series when the call fails), skip it when any aired episode is missing,
and otherwise write the tag set with SEARCH discarded and DONE added.
`int(s["id"])` raises out of `main` for an unresolvable id. -/
def promGo (cfg : Config) (env : Env) (now : Nat) :
    PromState → List Series → Except Unit PromState
  | st, [] => .ok st
  | st, s :: rest =>
    match Arr.resolveStrictId s.rid with
    | .error e => .error e
    | .ok sid =>
      match env.listEpisodes sid with
      | none => promGo cfg env now st rest
      | some eps =>
        if missing_aired_episode_ids eps now ≠ [] then promGo cfg env now st rest
        else
          let newTags :=
            Arr.pySortedSet ((s.tags.filter fun t => t ≠ cfg.tagSearchId) ++ [cfg.tagDoneId])
          if env.putSeriesOk sid then
            promGo cfg env now
              { searchToDone := st.searchToDone + 1
                writes := st.writes ++ [(sid, newTags)] } rest
          else promGo cfg env now st rest

/-- State of the DONE recheck/search loop (lines 185-233). -/
structure BState where
  hist : Arr.Hist
  waitSkipped : Nat
  rechecked : Nat
  searchedSeries : Nat
  searchedEps : Nat
  /-- Episodes whose `EpisodeSearch` POST actually succeeded. -/
  dispatchedEps : Nat
  recheckedIds : List Int
  /-- Series for which at least one chunk was dispatched successfully
  (`ok_any`), i.e. the series counted in `done_searched_series`. -/
  searchedSeriesIds : List Int

/-- DONE recheck/search loop (lines 190-233): stop at the recheck cap;
gate on the cooldown against the live state; stamp
`last_done_recheck_utc = now` on every rechecked series; list episodes
(continuing on failure); skip series with nothing missing; respect the
series and episode search caps; truncate the episode list to the
remaining episode budget; dispatch in chunks of 100; and only when some
chunk succeeded count the series, charge the full truncated list against
the episode budget, and stamp `last_done_searched_utc = now`. -/
def doneGo (cfg : Config) (env : Env) (now : Nat) :
    BState → List Series → Except Unit BState
  | st, [] => .ok st
  | st, s :: rest =>
    if st.rechecked ≥ Arr.effCap cfg.recheckMaxSeries then .ok st
    else
      match Arr.resolveStrictId s.rid with
      | .error e => .error e
      | .ok sid =>
        if Arr.should_wait (st.hist sid).lastRecheck cfg.recheckHours now then
          doneGo cfg env now { st with waitSkipped := st.waitSkipped + 1 } rest
        else
          let st1 : BState :=
            { st with
              rechecked := st.rechecked + 1
              hist := Function.update st.hist sid
                { st.hist sid with lastRecheck := some now }
              recheckedIds := st.recheckedIds ++ [sid] }
          match env.listEpisodes sid with
          | none => doneGo cfg env now st1 rest
          | some eps =>
            let miss := missing_aired_episode_ids eps now
            if miss = [] then doneGo cfg env now st1 rest
            else if st1.searchedSeries ≥ Arr.effCap cfg.searchMaxSeries ∨
                st1.searchedEps ≥ Arr.effCapEps cfg.searchMaxEps then
              doneGo cfg env now st1 rest
            else
              let remaining := Arr.effCapEps cfg.searchMaxEps - st1.searchedEps
              let toSearch := miss.take remaining
              if toSearch = [] then doneGo cfg env now st1 rest
              else
                let r := runChunks (env.chunkOk sid) 0 (chunked toSearch 100)
                let st2 : BState := { st1 with dispatchedEps := st1.dispatchedEps + r.2 }
                if r.1 then
                  doneGo cfg env now
                    { st2 with
                      searchedSeries := st2.searchedSeries + 1
                      searchedEps := st2.searchedEps + toSearch.length
                      hist := Function.update st2.hist sid
                        { st2.hist sid with lastSearched := some now }
                      searchedSeriesIds := st2.searchedSeriesIds ++ [sid] } rest
                else doneGo cfg env now st2 rest

/-- Modelled from the spec: the DONE recheck/search loop with all three
per-run caps removed, used as the unbounded reference point for the
cap-disabling claim.  Identical to `doneGo` except that the recheck-cap
break, the series/episode search-cap guard, and the episode-budget
truncation are gone (every missing episode is searched). -/
def doneNoCapGo (cfg : Config) (env : Env) (now : Nat) :
    BState → List Series → Except Unit BState
  | st, [] => .ok st
  | st, s :: rest =>
    match Arr.resolveStrictId s.rid with
    | .error e => .error e
    | .ok sid =>
      if Arr.should_wait (st.hist sid).lastRecheck cfg.recheckHours now then
        doneNoCapGo cfg env now { st with waitSkipped := st.waitSkipped + 1 } rest
      else
        let st1 : BState :=
          { st with
            rechecked := st.rechecked + 1
            hist := Function.update st.hist sid
              { st.hist sid with lastRecheck := some now }
            recheckedIds := st.recheckedIds ++ [sid] }
        match env.listEpisodes sid with
        | none => doneNoCapGo cfg env now st1 rest
        | some eps =>
          let miss := missing_aired_episode_ids eps now
          if miss = [] then doneNoCapGo cfg env now st1 rest
          else
            let r := runChunks (env.chunkOk sid) 0 (chunked miss 100)
            let st2 : BState := { st1 with dispatchedEps := st1.dispatchedEps + r.2 }
            if r.1 then
              doneNoCapGo cfg env now
                { st2 with
                  searchedSeries := st2.searchedSeries + 1
                  searchedEps := st2.searchedEps + miss.length
                  hist := Function.update st2.hist sid
                    { st2.hist sid with lastSearched := some now }
                  searchedSeriesIds := st2.searchedSeriesIds ++ [sid] } rest
            else doneNoCapGo cfg env now st2 rest

/-- Total number of missing aired episodes the DONE loop can encounter
over a series order, used to bound the episode budget when comparing
against the uncapped reference loop. -/
def epsBudget (env : Env) (now : Nat) : List Series → Nat
  | [] => 0
  | s :: rest =>
    (match Arr.resolveStrictId s.rid with
      | .error _ => 0
      | .ok sid =>
        match env.listEpisodes sid with
        | none => 0
        | some eps => (missing_aired_episode_ids eps now).length) +
      epsBudget env now rest

/-- Observable outcome of one sonarr `main` run. -/
structure RunResult where
  searchToDone : Nat
  promWrites : List (Int × List Int)
  waitSkipped : Nat
  rechecked : Nat
  searchedSeries : Nat
  searchedEps : Nat
  dispatchedEps : Nat
  recheckedIds : List Int
  searchedSeriesIds : List Int
  hist : Arr.Hist

instance : Inhabited RunResult :=
  ⟨{ searchToDone := 0, promWrites := [], waitSkipped := 0, rechecked := 0
     searchedSeries := 0, searchedEps := 0, dispatchedEps := 0
     recheckedIds := [], searchedSeriesIds := [], hist := default }⟩

/-- `main` of `sonarr_missing_done.py` (lines 134-236), from the point
where the series list has been fetched and the tag ids resolved: compute
tag membership from the snapshot, run the promotion loop in listing
order, then the shuffled DONE recheck/search loop, and persist state. -/
def run (cfg : Config) (env : Env) (hist0 : Arr.Hist) (now : Nat)
    (seriesAll : List Series) : Except Unit RunResult :=
  let searchTagged := seriesAll.filter (fun s => cfg.tagSearchId ∈ s.tags)
  let doneTagged := seriesAll.filter (fun s => cfg.tagDoneId ∈ s.tags)
  match promGo cfg env now { searchToDone := 0, writes := [] } searchTagged with
  | .error e => .error e
  | .ok prom =>
    match doneGo cfg env now
        { hist := hist0, waitSkipped := 0, rechecked := 0, searchedSeries := 0
          searchedEps := 0, dispatchedEps := 0, recheckedIds := []
          searchedSeriesIds := [] }
        (env.shuffleDone doneTagged) with
    | .error e => .error e
    | .ok b =>
      .ok { searchToDone := prom.searchToDone, promWrites := prom.writes
            waitSkipped := b.waitSkipped, rechecked := b.rechecked
            searchedSeries := b.searchedSeries, searchedEps := b.searchedEps
            dispatchedEps := b.dispatchedEps, recheckedIds := b.recheckedIds
            searchedSeriesIds := b.searchedSeriesIds, hist := b.hist }

end Sonarr

namespace Radarr

/-- A `/api/v3/movie` snapshot entry as the DONE phase uses it: raw id,
tag list, and `hasFile`. -/
structure Movie where
  rid : Arr.RawId
  tags : List Int
  hasFile : Bool
deriving DecidableEq

/-- Environment-derived configuration of `radarr_missing_done.py`. -/
structure Config where
  tagDoneId : Int
  recheckHours : Nat
  recheckMax : Int
  searchMax : Int

/-- The outside world as the radarr DONE phase observes it. -/
structure Env where
  /-- Whether the single batched `MoviesSearch` POST succeeds (caught at
  line 218). -/
  moviesSearchOk : Bool
  /-- Outcome of `random.shuffle(missing_done)` (line 187). -/
  shuffleDone : List Movie → List Movie

/-- State of the DONE consideration loop (lines 192-208). -/
structure BState where
  hist : Arr.Hist
  waitSkipped : Nat
  considered : Nat
  toSearch : List Int

/-- DONE consideration loop (lines 196-208): stop at the recheck cap;
gate on the cooldown against the live state; every considered movie is
stamped `last_done_recheck_utc = now` and queued for the batched search;
stop as soon as the queue reaches the search cap.  `int(m.get("id"))`
raises out of `main` for an unresolvable id. -/
def loopGo (cfg : Config) (now : Nat) :
    BState → List Movie → Except Unit BState
  | st, [] => .ok st
  | st, m :: rest =>
    if st.considered ≥ Arr.effCap cfg.recheckMax then .ok st
    else
      match Arr.resolveStrictId m.rid with
      | .error e => .error e
      | .ok mid =>
        if Arr.should_wait (st.hist mid).lastRecheck cfg.recheckHours now then
          loopGo cfg now { st with waitSkipped := st.waitSkipped + 1 } rest
        else
          let st1 : BState :=
            { st with
              considered := st.considered + 1
              hist := Function.update st.hist mid
                { st.hist mid with lastRecheck := some now }
              toSearch := st.toSearch ++ [mid] }
          if st1.toSearch.length ≥ Arr.effCap cfg.searchMax then .ok st1
          else loopGo cfg now st1 rest

/-- Modelled from the spec: the consideration loop with both per-run caps
removed, used as the unbounded reference point for the cap-disabling
claim.  Identical to `loopGo` except that the recheck-cap break and the
queue-length break are gone. -/
def loopNoCapGo (cfg : Config) (now : Nat) :
    BState → List Movie → Except Unit BState
  | st, [] => .ok st
  | st, m :: rest =>
    match Arr.resolveStrictId m.rid with
    | .error e => .error e
    | .ok mid =>
      if Arr.should_wait (st.hist mid).lastRecheck cfg.recheckHours now then
        loopNoCapGo cfg now { st with waitSkipped := st.waitSkipped + 1 } rest
      else
        loopNoCapGo cfg now
          { st with
            considered := st.considered + 1
            hist := Function.update st.hist mid
              { st.hist mid with lastRecheck := some now }
            toSearch := st.toSearch ++ [mid] } rest

/-- Stamp `last_done_searched_utc = now` for every queued movie
(lines 215-216). -/
def stampSearched (now : Nat) (hist : Arr.Hist) (ids : List Int) : Arr.Hist :=
  ids.foldl
    (fun h i => Function.update h i { h i with lastSearched := some now })
    hist

/-- Observable outcome of the radarr DONE phase. -/
structure RunResult where
  waitSkipped : Nat
  considered : Nat
  toSearch : List Int
  searched : Nat
  hist : Arr.Hist

instance : Inhabited RunResult :=
  ⟨{ waitSkipped := 0, considered := 0, toSearch := [], searched := 0
     hist := default }⟩

/-- The DONE phase of `radarr_missing_done.py` `main` (lines 186-222):
filter DONE-tagged, file-less movies from the snapshot, shuffle, run the
consideration loop, then dispatch the whole queue as one `MoviesSearch`
command — on success all queued movies are counted as searched and
stamped, on failure none are.  (The SEARCH-to-DONE phase at lines
175-184 only rewrites movie tags and shares no state with this phase, so
it is not part of this model.) -/
def run (cfg : Config) (env : Env) (hist0 : Arr.Hist) (now : Nat)
    (movies : List Movie) : Except Unit RunResult :=
  let doneTagged := movies.filter (fun m => cfg.tagDoneId ∈ m.tags)
  let missingDone := doneTagged.filter (fun m => !m.hasFile)
  match loopGo cfg now
      { hist := hist0, waitSkipped := 0, considered := 0, toSearch := [] }
      (env.shuffleDone missingDone) with
  | .error e => .error e
  | .ok b =>
    if b.toSearch ≠ [] ∧ env.moviesSearchOk then
      .ok { waitSkipped := b.waitSkipped, considered := b.considered
            toSearch := b.toSearch, searched := b.toSearch.length
            hist := stampSearched now b.hist b.toSearch }
    else
      .ok { waitSkipped := b.waitSkipped, considered := b.considered
            toSearch := b.toSearch, searched := 0, hist := b.hist }

end Radarr

/-! ## Concrete configurations, environments and inputs used to evaluate
the engines on small inputs (tag id 1 is SEARCH, tag id 2 is DONE). -/

namespace Cex

/-- Lidarr config with a promotion cap of 1 and default-like Phase B caps. -/
def lidarrCfg1 : Lidarr.Config :=
  { tagSearchId := 1, tagDoneId := 2, searchToDoneMax := 1, doneRecheckMax := 20
    doneSearchMax := 20, recheckHours := 24, wantedMaxPages := 200
    wantedPageSize := 200 }

/-- Lidarr config with a recheck cap of 1. -/
def lidarrCfg2 : Lidarr.Config :=
  { tagSearchId := 1, tagDoneId := 2, searchToDoneMax := 200, doneRecheckMax := 1
    doneSearchMax := 20, recheckHours := 24, wantedMaxPages := 200
    wantedPageSize := 200 }

/-- Healthy environment whose oracle reports nothing missing. -/
def lidarrEnvOk : Lidarr.Env :=
  { fetchPage := fun _ => some (Lidarr.Page.dict [] none none)
    backendTags := fun _ => [1]
    fetchArtistOk := fun _ => true
    putArtistOk := fun _ => true
    searchCmdOk := fun _ => true
    shuffleA := fun l => l
    shuffleB := fun l => l }

/-- Healthy environment whose oracle reports artists 1 and 2 missing. -/
def lidarrEnvMiss : Lidarr.Env :=
  { fetchPage := fun _ => some (Lidarr.Page.dict [some 1, some 2] (some 2) (some 200))
    backendTags := fun _ => [2]
    fetchArtistOk := fun _ => true
    putArtistOk := fun _ => true
    searchCmdOk := fun _ => true
    shuffleA := fun l => l
    shuffleB := fun l => l }

/-- Environment whose wanted/missing fetch always fails (retries exhausted). -/
def lidarrEnvDown : Lidarr.Env :=
  { fetchPage := fun _ => none
    backendTags := fun _ => [1]
    fetchArtistOk := fun _ => true
    putArtistOk := fun _ => true
    searchCmdOk := fun _ => true
    shuffleA := fun l => l
    shuffleB := fun l => l }

/-- Two SEARCH-tagged artists with well-formed positive ids. -/
def twoSearchArtists : List Lidarr.Artist :=
  [{ rid := Arr.RawId.num 1, tags := [1] }, { rid := Arr.RawId.num 2, tags := [1] }]

/-- Two DONE-tagged artists with well-formed positive ids. -/
def twoDoneArtists : List Lidarr.Artist :=
  [{ rid := Arr.RawId.num 1, tags := [2] }, { rid := Arr.RawId.num 2, tags := [2] }]

/-- A single SEARCH-tagged artist whose id field cannot be parsed. -/
def badArtistList : List Lidarr.Artist :=
  [{ rid := Arr.RawId.bad, tags := [1] }]

/-- Empty persisted history. -/
def histEmpty : Arr.Hist := fun _ => {}

/-- History in which every item was rechecked at time 900. -/
def histRecent : Arr.Hist := fun _ => { lastRecheck := some 900, lastSearched := none }

/-- Project the run result out of a lidarr run (default on error). -/
def runOf (r : Except Unit Lidarr.RunResult) : Lidarr.RunResult :=
  r.toOption.getD default

/-- Project the Phase A state out of a lidarr Phase A run (default on error). -/
def stateOf (r : Except Unit Lidarr.AState) : Lidarr.AState :=
  r.toOption.getD { bt := fun _ => [], flipped := 0, writes := [] }

/-- The flip counter of a Phase A result (zero on error). -/
def flippedOf (r : Except Unit Lidarr.AState) : Nat :=
  match r with
  | .ok s => s.flipped
  | .error _ => 0

/-- The write log of a Phase A result (empty on error). -/
def writesOf (r : Except Unit Lidarr.AState) : List (Int × List Int) :=
  match r with
  | .ok s => s.writes
  | .error _ => []

/-- C1 counterexample run: promotion cap 1, two promotable artists. -/
def c1Run : Lidarr.RunResult :=
  runOf (Lidarr.run lidarrCfg1 lidarrEnvOk histEmpty 1000 twoSearchArtists)

/-- C2 witness run: oracle down. -/
def c2Run : Lidarr.RunResult :=
  runOf (Lidarr.run lidarrCfg1 lidarrEnvDown histEmpty 1000 twoSearchArtists)

/-- C4 witness run: DONE-tagged missing artists inside the cooldown. -/
def c4Run : Lidarr.RunResult :=
  runOf (Lidarr.run lidarrCfg2 lidarrEnvMiss histRecent 1000 twoDoneArtists)

/-- C8 counterexample run: recheck cap 1, two eligible artists, no history. -/
def c8Run : Lidarr.RunResult :=
  runOf (Lidarr.run lidarrCfg2 lidarrEnvMiss histEmpty 1000 twoDoneArtists)

/-- C8 witness run: recheck cap 20, both artists considered. -/
def c8WitRun : Lidarr.RunResult :=
  runOf (Lidarr.run lidarrCfg1 lidarrEnvMiss histEmpty 1000 twoDoneArtists)

/-- Phase A start state shared by the concrete lidarr examples. -/
def c7Init : Lidarr.AState :=
  { bt := lidarrEnvOk.backendTags, flipped := 0, writes := [] }

/-- Lidarr config whose promotion cap is configured to 0 (disabled). -/
def c10Cfg : Lidarr.Config :=
  { tagSearchId := 1, tagDoneId := 2, searchToDoneMax := 0, doneRecheckMax := 0
    doneSearchMax := 0, recheckHours := 24, wantedMaxPages := 200
    wantedPageSize := 200 }

/-- `n` promotable artists with the distinct positive ids
`s + 1, s + 2, ..., s + n`. -/
def c10ItemsFrom : Nat → Nat → List Lidarr.Artist
  | _, 0 => []
  | s, n + 1 =>
    { rid := Arr.RawId.num ((s : Int) + 1), tags := [1] } :: c10ItemsFrom (s + 1) n

/-- Sonarr config with the default caps. -/
def sonarrCfg : Sonarr.Config :=
  { tagSearchId := 1, tagDoneId := 2, recheckHours := 24, recheckMaxSeries := 20
    searchMaxSeries := 5, searchMaxEps := 50 }

/-- Sonarr environment: series 3 has no episodes (fully acquired), every
other series has one monitored, file-less episode that aired at 500. -/
def sonarrEnv : Sonarr.Env :=
  { listEpisodes := fun sid =>
      if sid = 3 then some []
      else some [{ monitored := true, hasFile := false, air := some 500, epId := 101 }]
    putSeriesOk := fun _ => true
    chunkOk := fun _ _ => true
    shuffleDone := fun l => l }

/-- One SEARCH-tagged series (id 3, fully acquired) and one DONE-tagged
series (id 1, one missing aired episode). -/
def sonarrSeries : List Sonarr.Series :=
  [{ rid := Arr.RawId.num 3, tags := [1] }, { rid := Arr.RawId.num 1, tags := [2] }]

/-- Project the run result out of a sonarr run (default on error). -/
def sonarrRunOf (r : Except Unit Sonarr.RunResult) : Sonarr.RunResult :=
  r.toOption.getD default

/-- Sonarr witness run. -/
def sonarrRun1 : Sonarr.RunResult :=
  sonarrRunOf (Sonarr.run sonarrCfg sonarrEnv histEmpty 1000 sonarrSeries)

/-- Sonarr run with all items inside the cooldown. -/
def sonarrRun2 : Sonarr.RunResult :=
  sonarrRunOf (Sonarr.run sonarrCfg sonarrEnv histRecent 1000 sonarrSeries)

/-- Sonarr config with every cap configured to 0 (disabled). -/
def sonarrCfg0 : Sonarr.Config :=
  { tagSearchId := 1, tagDoneId := 2, recheckHours := 24, recheckMaxSeries := 0
    searchMaxSeries := 0, searchMaxEps := 0 }

/-- Radarr config with the default caps. -/
def radarrCfg : Radarr.Config :=
  { tagDoneId := 2, recheckHours := 24, recheckMax := 20, searchMax := 10 }

/-- Radarr config with both caps configured to 0 (disabled). -/
def radarrCfg0 : Radarr.Config :=
  { tagDoneId := 2, recheckHours := 24, recheckMax := 0, searchMax := 0 }

/-- Radarr environment with a working `MoviesSearch` command. -/
def radarrEnv : Radarr.Env :=
  { moviesSearchOk := true, shuffleDone := fun l => l }

/-- Radarr environment whose `MoviesSearch` command fails. -/
def radarrEnvFail : Radarr.Env :=
  { moviesSearchOk := false, shuffleDone := fun l => l }

/-- One DONE-tagged file-less movie whose id resolves to 0. -/
def zeroIdMovie : List Radarr.Movie :=
  [{ rid := Arr.RawId.num 0, tags := [2], hasFile := false }]

/-- One DONE-tagged file-less movie with id 7. -/
def oneMovie : List Radarr.Movie :=
  [{ rid := Arr.RawId.num 7, tags := [2], hasFile := false }]

/-- Project the run result out of a radarr run (default on error). -/
def radarrRunOf (r : Except Unit Radarr.RunResult) : Radarr.RunResult :=
  r.toOption.getD default

/-- C9 counterexample run: the id-0 movie is processed normally. -/
def c9Run : Radarr.RunResult :=
  radarrRunOf (Radarr.run radarrCfg radarrEnv histEmpty 1000 zeroIdMovie)

/-- Radarr witness run with a working command. -/
def radarrRun1 : Radarr.RunResult :=
  radarrRunOf (Radarr.run radarrCfg radarrEnv histEmpty 1000 oneMovie)

/-- Radarr witness run with a failing command. -/
def radarrRunFail : Radarr.RunResult :=
  radarrRunOf (Radarr.run radarrCfg radarrEnvFail histEmpty 1000 oneMovie)

end Cex

/-! ## Basic lemmas about the shared helpers -/

namespace Arr

theorem mem_pySortedSet {x : Int} {l : List Int} : x ∈ pySortedSet l ↔ x ∈ l := by
  unfold pySortedSet pySorted
  rw [(List.perm_insertionSort (· ≤ ·) l.dedup).mem_iff]
  exact List.mem_dedup

theorem add_mem_replace_tag_list (l : List Int) (r a : Int) :
    a ∈ replace_tag_list l r a := by
  unfold replace_tag_list
  rw [mem_pySortedSet]
  split
  · assumption
  · simp

theorem remove_not_mem_replace_tag_list (l : List Int) {r a : Int} (h : r ≠ a) :
    r ∉ replace_tag_list l r a := by
  unfold replace_tag_list
  rw [mem_pySortedSet]
  split
  · simp [List.mem_filter]
  · simp [List.mem_filter, h]

theorem effCap_pos (c : Int) : 0 < effCap c := by
  unfold effCap
  split
  · omega
  · norm_num

theorem effCap_of_pos {c : Int} (h : 0 < c) : effCap c = c.toNat := by
  unfold effCap
  rw [if_pos h]

theorem effCapEps_of_pos {c : Int} (h : 0 < c) : effCapEps c = c.toNat := by
  unfold effCapEps
  rw [if_pos h]

theorem should_recheck_on_wait {t hours now : Nat} (h : now < t + hours * 3600) :
    (should_recheck (some t) hours now).1 = true := by
  unfold should_recheck
  dsimp only
  rw [if_pos h]

theorem should_recheck_none (hours now : Nat) :
    (should_recheck none hours now).1 = false := rfl

theorem should_wait_on_wait {t hours now : Nat} (h : now < t + hours * 3600) :
    should_wait (some t) hours now = true := by
  unfold should_wait
  exact decide_eq_true h

theorem effCap_of_nonpos {c : Int} (h : c ≤ 0) : effCap c = 10 ^ 9 := by
  unfold effCap
  rw [if_neg (by omega)]

theorem effCapEps_of_nonpos {c : Int} (h : c ≤ 0) : effCapEps c = 10 ^ 12 := by
  unfold effCapEps
  rw [if_neg (by omega)]

end Arr

/-! ## Lidarr: oracle unavailability -/

namespace Lidarr

theorem missing_artist_ids_none_of_first_page {fetch : Nat → Option Page}
    {maxPages psz : Nat} (hmp : 1 ≤ maxPages) (h1 : fetch 1 = none) :
    missing_artist_ids fetch maxPages psz = none := by
  unfold missing_artist_ids
  obtain ⟨k, rfl⟩ : ∃ k, maxPages = k + 1 := ⟨maxPages - 1, by omega⟩
  rw [goPages, h1]

theorem run_oracle_none {cfg : Config} {env : Env} {hist0 : Arr.Hist}
    {now : Nat} {artists : List Artist} {r : RunResult}
    (hor : missing_artist_ids env.fetchPage cfg.wantedMaxPages cfg.wantedPageSize = none)
    (hr : run cfg env hist0 now artists = .ok r) :
    r.written = none ∧ r.tagWrites = [] ∧ r.searchedIds = [] ∧
      r.consideredIds = [] ∧ r.hist = hist0 ∧ r.tags = env.backendTags := by
  unfold run at hr
  rw [hor] at hr
  cases hr
  exact ⟨rfl, rfl, rfl, rfl, rfl, rfl⟩

/-! ## Lidarr: Phase A writes only DONE-not-SEARCH tag sets -/

/-- Invariant of the Phase A loop: every successful `update_artist` so
far wrote a tag set that, in the current backend state, contains the
DONE tag and not the SEARCH tag. -/
def AWritesInv (cfg : Config) (st : AState) : Prop :=
  ∀ p ∈ st.writes, cfg.tagDoneId ∈ st.bt p.1 ∧ cfg.tagSearchId ∉ st.bt p.1

theorem phaseAGo_writes_inv {cfg : Config} {env : Env} {missIds : List Int}
    (hne : cfg.tagSearchId ≠ cfg.tagDoneId) :
    ∀ (l : List Artist) (st st' : AState),
      phaseAGo cfg env missIds st l = .ok st' →
      AWritesInv cfg st → AWritesInv cfg st' := by
  intro l
  induction l with
  | nil =>
    intro st st' h hinv
    rw [phaseAGo] at h
    cases h
    exact hinv
  | cons a rest ih =>
    intro st st' h hinv
    rw [phaseAGo] at h
    split at h
    · cases h; exact hinv
    · split at h
      · cases h
      · rename_i aid _
        dsimp only at h
        split at h
        · exact ih _ _ h hinv
        · split at h
          · exact ih _ _ h hinv
          · split at h
            · split at h
              · exact ih _ _ h hinv
              · split at h
                · refine ih _ _ h ?_
                  intro p hp
                  rcases List.mem_append.mp hp with hp | hp
                  · rcases hinv p hp with ⟨hd, hs⟩
                    by_cases hpa : p.1 = aid
                    · subst hpa
                      simp only [Function.update_same]
                      exact ⟨Arr.add_mem_replace_tag_list _ _ _,
                        Arr.remove_not_mem_replace_tag_list _ hne⟩
                    · simp only [Function.update_noteq hpa]
                      exact ⟨hd, hs⟩
                  · simp only [List.mem_singleton] at hp
                    subst hp
                    simp only [Function.update_same]
                    exact ⟨Arr.add_mem_replace_tag_list _ _ _,
                      Arr.remove_not_mem_replace_tag_list _ hne⟩
                · exact ih _ _ h hinv
            · exact ih _ _ h hinv

/-! ## Lidarr: considered/searched loop invariants -/

theorem consideredGo_recheck_stamp {cfg : Config} {env : Env} {now : Nat} :
    ∀ (l : List Int) (st : BState),
      (∀ i ∈ st.consideredIds, (st.hist i).lastRecheck = some now) →
      ∀ i ∈ (consideredGo cfg env now st l).consideredIds,
        ((consideredGo cfg env now st l).hist i).lastRecheck = some now := by
  intro l
  induction l with
  | nil =>
    intro st hinv
    rw [consideredGo]
    exact hinv
  | cons aid rest ih =>
    intro st hinv
    rw [consideredGo]
    split
    · exact hinv
    · dsimp only
      have hinv1 : ∀ i ∈ st.consideredIds ++ [aid],
          ((Function.update st.hist aid
            { st.hist aid with lastRecheck := some now }) i).lastRecheck = some now := by
        intro i hi
        by_cases hia : i = aid
        · subst hia
          simp only [Function.update_same]
        · simp only [Function.update_noteq hia]
          rcases List.mem_append.mp hi with hi | hi
          · exact hinv i hi
          · simp only [List.mem_singleton] at hi
            exact absurd hi hia
      split
      · exact ih _ hinv1
      · split
        · refine ih _ ?_
          intro i hi
          by_cases hia : i = aid
          · subst hia
            simp only [Function.update_same]
          · simp only [Function.update_noteq hia]
            rcases List.mem_append.mp hi with hi | hi
            · exact hinv i hi
            · simp only [List.mem_singleton] at hi
              exact absurd hi hia
        · exact ih _ hinv1

theorem consideredGo_untouched {cfg : Config} {env : Env} {now : Nat} {aid : Int} :
    ∀ (l : List Int) (st : BState), aid ∉ l →
      (consideredGo cfg env now st l).hist aid = st.hist aid ∧
      (aid ∉ st.consideredIds →
        aid ∉ (consideredGo cfg env now st l).consideredIds) ∧
      (aid ∉ st.searchedIds →
        aid ∉ (consideredGo cfg env now st l).searchedIds) := by
  intro l
  induction l with
  | nil =>
    intro st _
    rw [consideredGo]
    exact ⟨rfl, fun h => h, fun h => h⟩
  | cons x rest ih =>
    intro st hl
    have hax : aid ≠ x := fun h => hl (h ▸ List.mem_cons_self x rest)
    have hrest : aid ∉ rest := fun h => hl (List.mem_cons_of_mem x h)
    rw [consideredGo]
    split
    · exact ⟨rfl, fun h => h, fun h => h⟩
    · dsimp only
      split
      · rcases ih _ hrest with ⟨h1, h2, h3⟩
        refine ⟨?_, ?_, ?_⟩
        · rw [h1]
          simp [Function.update_noteq hax]
        · intro hc
          refine h2 ?_
          simp only [List.mem_append, List.mem_singleton]
          rintro (hc2 | hc2)
          · exact hc hc2
          · exact hax hc2
        · exact h3
      · split
        · rcases ih _ hrest with ⟨h1, h2, h3⟩
          refine ⟨?_, ?_, ?_⟩
          · rw [h1]
            simp [Function.update_noteq hax]
          · intro hc
            refine h2 ?_
            simp only [List.mem_append, List.mem_singleton]
            rintro (hc2 | hc2)
            · exact hc hc2
            · exact hax hc2
          · intro hc
            refine h3 ?_
            simp only [List.mem_append, List.mem_singleton]
            rintro (hc2 | hc2)
            · exact hc hc2
            · exact hax hc2
        · rcases ih _ hrest with ⟨h1, h2, h3⟩
          refine ⟨?_, ?_, ?_⟩
          · rw [h1]
            simp [Function.update_noteq hax]
          · intro hc
            refine h2 ?_
            simp only [List.mem_append, List.mem_singleton]
            rintro (hc2 | hc2)
            · exact hc hc2
            · exact hax hc2
          · exact h3

theorem consideredGo_caps {cfg : Config} {env : Env} {now : Nat} :
    ∀ (l : List Int) (st : BState),
      st.considered ≤ Arr.effCap cfg.doneRecheckMax →
      st.searched ≤ Arr.effCap cfg.doneSearchMax →
      st.searched ≤ st.considered →
      (consideredGo cfg env now st l).considered ≤ Arr.effCap cfg.doneRecheckMax ∧
      (consideredGo cfg env now st l).searched ≤ Arr.effCap cfg.doneSearchMax ∧
      (consideredGo cfg env now st l).searched ≤
        (consideredGo cfg env now st l).considered := by
  intro l
  induction l with
  | nil =>
    intro st h1 h2 h3
    rw [consideredGo]
    exact ⟨h1, h2, h3⟩
  | cons aid rest ih =>
    intro st h1 h2 h3
    rw [consideredGo]
    split
    · exact ⟨h1, h2, h3⟩
    · rename_i hcap
      dsimp only
      split
      · refine ih _ ?_ ?_ ?_ <;> dsimp only <;> omega
      · rename_i hscap
        try dsimp only at hscap
        split
        · refine ih _ ?_ ?_ ?_ <;> dsimp only <;> omega
        · refine ih _ ?_ ?_ ?_ <;> dsimp only <;> omega

theorem consideredGo_searched_spec {cfg : Config} {env : Env} {now : Nat}
    (hist0 : Arr.Hist) :
    ∀ (l : List Int) (st : BState),
      (∀ i, (st.hist i).lastSearched =
        if i ∈ st.searchedIds then some now else (hist0 i).lastSearched) →
      (∀ i ∈ st.searchedIds, env.searchCmdOk i = true) →
      (∀ i, ((consideredGo cfg env now st l).hist i).lastSearched =
        if i ∈ (consideredGo cfg env now st l).searchedIds then some now
        else (hist0 i).lastSearched) ∧
      (∀ i ∈ (consideredGo cfg env now st l).searchedIds,
        env.searchCmdOk i = true) := by
  intro l
  induction l with
  | nil =>
    intro st hinv hok
    rw [consideredGo]
    exact ⟨hinv, hok⟩
  | cons aid rest ih =>
    intro st hinv hok
    rw [consideredGo]
    split
    · exact ⟨hinv, hok⟩
    · dsimp only
      have hinv1 : ∀ i,
          ((Function.update st.hist aid
            { lastRecheck := some now
              lastSearched := (st.hist aid).lastSearched }) i).lastSearched =
          if i ∈ st.searchedIds then some now else (hist0 i).lastSearched := by
        intro i
        by_cases hia : i = aid
        · subst hia
          simp only [Function.update_same]
          exact hinv _
        · simp only [Function.update_noteq hia]
          exact hinv i
      split
      · exact ih _ hinv1 hok
      · rename_i hcmd
        split
        · rename_i hcmdok
          refine ih _ ?_ ?_
          · intro i
            by_cases hia : i = aid
            · subst hia
              simp only [Function.update_same, List.mem_append,
                List.mem_singleton, or_true, if_true]
            · simp only [Function.update_noteq hia]
              rw [hinv i]
              by_cases hmem : i ∈ st.searchedIds
              · simp [hmem]
              · simp [hmem, hia]
          · intro i hi
            rcases List.mem_append.mp hi with hi | hi
            · exact hok i hi
            · simp only [List.mem_singleton] at hi
              subst hi
              exact hcmdok
        · exact ih _ hinv1 hok

/-! ## Lidarr: eligibility-pass lemmas -/

theorem eligGo_elig_mono {missIds : List Int} {hist0 : Arr.Hist} {hours now : Nat} :
    ∀ (l : List Artist) (st st' : EligState),
      eligGo missIds hist0 hours now st l = .ok st' →
      ∀ i ∈ st.elig, i ∈ st'.elig := by
  intro l
  induction l with
  | nil =>
    intro st st' h
    rw [eligGo] at h
    cases h
    exact fun i hi => hi
  | cons a rest ih =>
    intro st st' h
    rw [eligGo] at h
    split at h
    · cases h
    · split at h
      · exact fun i hi => ih _ _ h i hi
      · split at h
        · split at h
          · exact fun i hi => ih _ _ h i hi
          · intro i hi
            exact ih _ _ h i (List.mem_append.mpr (Or.inl hi))
        · exact fun i hi => ih _ _ h i hi

theorem eligGo_not_mem_of_wait {missIds : List Int} {hist0 : Arr.Hist}
    {hours now : Nat} {aid : Int}
    (hw : (Arr.should_recheck (hist0 aid).lastRecheck hours now).1 = true) :
    ∀ (l : List Artist) (st st' : EligState),
      eligGo missIds hist0 hours now st l = .ok st' →
      aid ∉ st.elig → aid ∉ st'.elig := by
  intro l
  induction l with
  | nil =>
    intro st st' h hst
    rw [eligGo] at h
    cases h
    exact hst
  | cons a rest ih =>
    intro st st' h hst
    rw [eligGo] at h
    split at h
    · cases h
    · rename_i x hres
      split at h
      · exact ih _ _ h hst
      · split at h
        · split at h
          · exact ih _ _ h hst
          · rename_i hmiss hgate
            refine ih _ _ h ?_
            intro hc
            rcases List.mem_append.mp hc with hc | hc
            · exact hst hc
            · simp only [List.mem_singleton] at hc
              subst hc
              exact hgate hw
        · exact ih _ _ h hst

theorem eligGo_mem_complete {missIds : List Int} {hist0 : Arr.Hist}
    {hours now : Nat} :
    ∀ (l : List Artist) (st st' : EligState),
      eligGo missIds hist0 hours now st l = .ok st' →
      ∀ a ∈ l, ∀ aid : Int, Arr.resolveLidarrId a.rid = .ok aid → 0 < aid →
        aid ∈ missIds →
        (Arr.should_recheck (hist0 aid).lastRecheck hours now).1 = false →
        aid ∈ st'.elig := by
  intro l
  induction l with
  | nil =>
    intro st st' _ a ha
    exact absurd ha (List.not_mem_nil a)
  | cons b rest ih =>
    intro st st' h a ha aid hres hpos hmiss hgate
    rcases List.mem_cons.mp ha with ha | ha
    · subst ha
      rw [eligGo] at h
      simp only [hres] at h
      rw [if_neg (by omega)] at h
      rw [if_pos hmiss] at h
      rw [hgate] at h
      simp only [Bool.false_eq_true, if_false] at h
      exact eligGo_elig_mono _ _ _ h aid (List.mem_append.mpr (Or.inr (by simp)))
    · rw [eligGo] at h
      split at h
      · cases h
      · split at h
        · exact ih _ _ h a ha aid hres hpos hmiss hgate
        · split at h
          · split at h
            · exact ih _ _ h a ha aid hres hpos hmiss hgate
            · exact ih _ _ h a ha aid hres hpos hmiss hgate
          · exact ih _ _ h a ha aid hres hpos hmiss hgate

/-! ## Lidarr: further Phase A lemmas -/

theorem phaseAGo_stop_of_cap {cfg : Config} {env : Env} {missIds : List Int}
    {st : AState} (hcap : st.flipped ≥ Arr.effCap cfg.searchToDoneMax) :
    ∀ l, phaseAGo cfg env missIds st l = .ok st := by
  intro l
  cases l with
  | nil => rw [phaseAGo]
  | cons a rest =>
    rw [phaseAGo]
    rw [if_pos hcap]

theorem phaseAGo_skip_nonpos {cfg : Config} {env : Env} {missIds : List Int}
    {x : Artist} {n : Int} (hres : Arr.resolveLidarrId x.rid = .ok n) (hn : n ≤ 0) :
    ∀ (st : AState) (l : List Artist),
      phaseAGo cfg env missIds st (x :: l) = phaseAGo cfg env missIds st l := by
  intro st l
  by_cases hcap : st.flipped ≥ Arr.effCap cfg.searchToDoneMax
  · rw [phaseAGo_stop_of_cap hcap, phaseAGo_stop_of_cap hcap]
  · rw [phaseAGo]
    rw [if_neg hcap, hres]
    dsimp only
    rw [if_pos hn]

theorem phaseAGo_drop_nonpos {cfg : Config} {env : Env} {missIds : List Int}
    {x : Artist} {n : Int} (hres : Arr.resolveLidarrId x.rid = .ok n) (hn : n ≤ 0) :
    ∀ (xs ys : List Artist) (st : AState),
      phaseAGo cfg env missIds st (xs ++ x :: ys) =
        phaseAGo cfg env missIds st (xs ++ ys) := by
  intro xs
  induction xs with
  | nil =>
    intro ys st
    simp only [List.nil_append]
    exact phaseAGo_skip_nonpos hres hn st ys
  | cons a xs ihx =>
    intro ys st
    simp only [List.cons_append]
    by_cases hcap : st.flipped ≥ Arr.effCap cfg.searchToDoneMax
    · rw [phaseAGo_stop_of_cap hcap, phaseAGo_stop_of_cap hcap]
    · conv_lhs => rw [phaseAGo]
      conv_rhs => rw [phaseAGo]
      rw [if_neg hcap, if_neg hcap]
      cases hres2 : Arr.resolveLidarrId a.rid with
      | error e => simp only [hres2]
      | ok m =>
        simp only [hres2]
        by_cases hm : m ≤ 0
        · rw [if_pos hm, if_pos hm]
          exact ihx ys st
        · rw [if_neg hm, if_neg hm]
          by_cases hmiss : m ∈ missIds
          · rw [if_pos hmiss, if_pos hmiss]
            exact ihx ys st
          · rw [if_neg hmiss, if_neg hmiss]
            by_cases hfok : env.fetchArtistOk m = true
            · simp only [hfok, if_true]
              by_cases hsorted : Arr.pySortedSet (st.bt m) =
                  Arr.pySortedSet (Arr.replace_tag_list (st.bt m)
                    cfg.tagSearchId cfg.tagDoneId)
              · rw [if_pos hsorted, if_pos hsorted]
                exact ihx ys st
              · rw [if_neg hsorted, if_neg hsorted]
                by_cases hpok : env.putArtistOk m = true
                · simp only [hpok, if_true]
                  exact ihx ys _
                · simp only [hpok, if_false]
                  exact ihx ys st
            · simp only [hfok, if_false]
              exact ihx ys st

theorem phaseAGo_abort_of_bad {cfg : Config} {env : Env} {missIds : List Int}
    {x : Artist} (hres : Arr.resolveLidarrId x.rid = .error ())
    {st : AState} (hcap : st.flipped < Arr.effCap cfg.searchToDoneMax)
    (l : List Artist) :
    phaseAGo cfg env missIds st (x :: l) = .error () := by
  rw [phaseAGo]
  rw [if_neg (by omega), hres]

theorem phaseANoCapGo_writes_mono {cfg : Config} {env : Env} {missIds : List Int} :
    ∀ (l : List Artist) (st st' : AState),
      phaseANoCapGo cfg env missIds st l = .ok st' →
      ∃ ext, st'.writes = st.writes ++ ext := by
  intro l
  induction l with
  | nil =>
    intro st st' h
    rw [phaseANoCapGo] at h
    cases h
    exact ⟨[], by simp⟩
  | cons a rest ih =>
    intro st st' h
    rw [phaseANoCapGo] at h
    split at h
    · cases h
    · rename_i m _
      dsimp only at h
      split at h
      · exact ih _ _ h
      · split at h
        · exact ih _ _ h
        · split at h
          · split at h
            · exact ih _ _ h
            · split at h
              · rcases ih _ _ h with ⟨ext, hext⟩
                refine ⟨(m, Arr.replace_tag_list (st.bt m) cfg.tagSearchId
                  cfg.tagDoneId) :: ext, ?_⟩
                rw [hext]
                simp
              · exact ih _ _ h
          · exact ih _ _ h

theorem phaseAGo_writes_take {cfg : Config} {env : Env} {missIds : List Int} :
    ∀ (l : List Artist) (st s s' : AState),
      phaseAGo cfg env missIds st l = .ok s →
      phaseANoCapGo cfg env missIds st l = .ok s' →
      st.flipped ≤ Arr.effCap cfg.searchToDoneMax →
      s.writes = s'.writes.take
        (st.writes.length + (Arr.effCap cfg.searchToDoneMax - st.flipped)) := by
  intro l
  induction l with
  | nil =>
    intro st s s' h h' _
    rw [phaseAGo] at h
    rw [phaseANoCapGo] at h'
    cases h
    cases h'
    exact (List.take_of_length_le (by omega)).symm
  | cons a rest ih =>
    intro st s s' h h' hle
    by_cases hcap : st.flipped ≥ Arr.effCap cfg.searchToDoneMax
    · rw [phaseAGo_stop_of_cap hcap] at h
      cases h
      rcases phaseANoCapGo_writes_mono _ _ _ h' with ⟨ext, hext⟩
      have hflip : Arr.effCap cfg.searchToDoneMax - st.flipped = 0 := by omega
      rw [hext, hflip, Nat.add_zero, List.take_left]
    · rw [phaseAGo] at h
      rw [phaseANoCapGo] at h'
      rw [if_neg hcap] at h
      cases hres2 : Arr.resolveLidarrId a.rid with
      | error e =>
        rw [hres2] at h
        cases h
      | ok m =>
        rw [hres2] at h
        rw [hres2] at h'
        dsimp only at h h'
        by_cases hm : m ≤ 0
        · rw [if_pos hm] at h h'
          exact ih _ _ _ h h' hle
        · rw [if_neg hm] at h h'
          by_cases hmiss : m ∈ missIds
          · rw [if_pos hmiss] at h h'
            exact ih _ _ _ h h' hle
          · rw [if_neg hmiss] at h h'
            by_cases hfok : env.fetchArtistOk m = true
            · simp only [hfok, if_true] at h h'
              by_cases hsorted : Arr.pySortedSet (st.bt m) =
                  Arr.pySortedSet (Arr.replace_tag_list (st.bt m)
                    cfg.tagSearchId cfg.tagDoneId)
              · rw [if_pos hsorted] at h h'
                exact ih _ _ _ h h' hle
              · rw [if_neg hsorted] at h h'
                by_cases hpok : env.putArtistOk m = true
                · simp only [hpok, if_true] at h h'
                  have := ih _ _ _ h h' (by dsimp only; omega)
                  rw [this]
                  have harg : (st.writes ++
                      [(m, Arr.replace_tag_list (st.bt m) cfg.tagSearchId
                        cfg.tagDoneId)]).length +
                      (Arr.effCap cfg.searchToDoneMax - (st.flipped + 1)) =
                      st.writes.length +
                        (Arr.effCap cfg.searchToDoneMax - st.flipped) := by
                    simp only [List.length_append, List.length_singleton]
                    omega
                  rw [harg]
                · simp only [hpok, if_false] at h h'
                  exact ih _ _ _ h h' hle
            · simp only [hfok, if_false] at h h'
              exact ih _ _ _ h h' hle

theorem phaseAGo_noCap_agree {cfg : Config} {env : Env} {missIds : List Int}
    (hcap : cfg.searchToDoneMax ≤ 0) :
    ∀ (l : List Artist) (st : AState), st.flipped + l.length ≤ 10 ^ 9 →
      phaseAGo cfg env missIds st l = phaseANoCapGo cfg env missIds st l := by
  intro l
  induction l with
  | nil =>
    intro st _
    rw [phaseAGo, phaseANoCapGo]
  | cons a rest ih =>
    intro st hlen
    rw [phaseAGo, phaseANoCapGo]
    rw [if_neg (by
      rw [Arr.effCap_of_nonpos hcap]
      simp only [List.length_cons] at hlen
      omega)]
    cases hres2 : Arr.resolveLidarrId a.rid with
    | error e => rfl
    | ok m =>
      dsimp only
      simp only [List.length_cons] at hlen
      by_cases hm : m ≤ 0
      · rw [if_pos hm, if_pos hm]
        exact ih st (by omega)
      · rw [if_neg hm, if_neg hm]
        by_cases hmiss : m ∈ missIds
        · rw [if_pos hmiss, if_pos hmiss]
          exact ih st (by omega)
        · rw [if_neg hmiss, if_neg hmiss]
          by_cases hfok : env.fetchArtistOk m = true
          · simp only [hfok, if_true]
            by_cases hsorted : Arr.pySortedSet (st.bt m) =
                Arr.pySortedSet (Arr.replace_tag_list (st.bt m)
                  cfg.tagSearchId cfg.tagDoneId)
            · rw [if_pos hsorted, if_pos hsorted]
              exact ih st (by omega)
            · rw [if_neg hsorted, if_neg hsorted]
              by_cases hpok : env.putArtistOk m = true
              · simp only [hpok, if_true]
                exact ih _ (by dsimp only; omega)
              · simp only [hpok, if_false]
                exact ih st (by omega)
          · simp only [hfok, if_false]
            exact ih st (by omega)

theorem consideredGo_noCap_agree {cfg : Config} {env : Env} {now : Nat}
    (h1 : cfg.doneRecheckMax ≤ 0) (h2 : cfg.doneSearchMax ≤ 0) :
    ∀ (l : List Int) (st : BState),
      st.considered + l.length ≤ 10 ^ 9 →
      st.searched + l.length ≤ 10 ^ 9 →
      consideredGo cfg env now st l = consideredNoCapGo env now st l := by
  intro l
  induction l with
  | nil =>
    intro st _ _
    rw [consideredGo, consideredNoCapGo]
  | cons aid rest ih =>
    intro st hc hs
    simp only [List.length_cons] at hc hs
    rw [consideredGo, consideredNoCapGo]
    rw [if_neg (by rw [Arr.effCap_of_nonpos h1]; omega)]
    dsimp only
    rw [if_neg (by rw [Arr.effCap_of_nonpos h2]; omega)]
    by_cases hok : env.searchCmdOk aid = true
    · simp only [hok, if_true]
      exact ih _ (by dsimp only; omega) (by dsimp only; omega)
    · simp only [hok, if_false]
      exact ih _ (by dsimp only; omega) (by dsimp only; omega)

/-- Unpack a successful `run` into its oracle, Phase A, eligibility and
considered-loop components. -/
theorem lidarr_run_ok_elim {cfg : Config} {env : Env} {hist0 : Arr.Hist} {now : Nat}
    {artists : List Artist} {r : RunResult}
    (hr : run cfg env hist0 now artists = .ok r) :
    (missing_artist_ids env.fetchPage cfg.wantedMaxPages cfg.wantedPageSize = none ∧
      r.written = none ∧ r.tagWrites = [] ∧ r.consideredIds = [] ∧
      r.searchedIds = [] ∧ r.eligIds = [] ∧ r.hist = hist0 ∧
      r.tags = env.backendTags ∧ r.considered = 0 ∧ r.searched = 0) ∨
    ∃ missIds aSt eSt,
      missing_artist_ids env.fetchPage cfg.wantedMaxPages cfg.wantedPageSize =
        some missIds ∧
      phaseAGo cfg env missIds { bt := env.backendTags, flipped := 0, writes := [] }
        (env.shuffleA (artists.filter fun a => cfg.tagSearchId ∈ a.tags)) = .ok aSt ∧
      eligGo missIds hist0 cfg.recheckHours now { skipped := 0, elig := [] }
        (artists.filter fun a => cfg.tagDoneId ∈ a.tags) = .ok eSt ∧
      r.tags = aSt.bt ∧ r.tagWrites = aSt.writes ∧ r.flipped = aSt.flipped ∧
      r.doneWaitSkipped = eSt.skipped ∧ r.eligIds = eSt.elig ∧
      (let bSt := consideredGo cfg env now
        { hist := hist0, considered := 0, searched := 0
          consideredIds := [], searchedIds := [] } (env.shuffleB eSt.elig)
       r.considered = bSt.considered ∧ r.searched = bSt.searched ∧
       r.consideredIds = bSt.consideredIds ∧ r.searchedIds = bSt.searchedIds ∧
       r.hist = bSt.hist ∧ r.written = some bSt.hist) := by
  unfold run at hr
  split at hr
  · cases hr
    exact Or.inl ⟨by assumption, rfl, rfl, rfl, rfl, rfl, rfl, rfl, rfl, rfl⟩
  · rename_i missIds hor
    dsimp only at hr
    split at hr
    · cases hr
    · rename_i aSt hA
      split at hr
      · cases hr
      · rename_i eSt hE
        cases hr
        exact Or.inr ⟨missIds, aSt, eSt, hor, hA, hE, rfl, rfl, rfl, rfl, rfl,
          rfl, rfl, rfl, rfl, rfl, rfl⟩

end Lidarr

/-! ## Sonarr: chunking lemmas -/

namespace Sonarr

theorem chunkedGo_length_sum :
    ∀ (fuel : Nat) (l : List Int) (n : Nat), l.length ≤ fuel → 1 ≤ n →
      ((chunkedGo fuel l n).map List.length).sum = l.length := by
  intro fuel
  induction fuel with
  | zero =>
    intro l n hlen _
    have : l = [] := List.eq_nil_of_length_eq_zero (by omega)
    subst this
    rw [chunkedGo]
    simp
  | succ fuel ih =>
    intro l n hlen hn
    cases l with
    | nil =>
      rw [chunkedGo]
      simp
    | cons x xs =>
      obtain ⟨m, rfl⟩ : ∃ m, n = m + 1 := ⟨n - 1, by omega⟩
      rw [chunkedGo]
      simp only [List.map_cons, List.sum_cons]
      rw [ih ((x :: xs).drop (m + 1)) (m + 1)
        (by simp only [List.length_drop, List.length_cons] at *; omega) hn]
      simp only [List.length_take, List.length_drop, List.length_cons]
      omega

theorem chunked_length_sum (l : List Int) (n : Nat) (hn : 1 ≤ n) :
    ((chunked l n).map List.length).sum = l.length :=
  chunkedGo_length_sum l.length l n le_rfl hn

theorem runChunks_le (ok : Nat → Bool) :
    ∀ (cs : List (List Int)) (i : Nat),
      (runChunks ok i cs).2 ≤ (cs.map List.length).sum := by
  intro cs
  induction cs with
  | nil =>
    intro i
    rw [runChunks]
    simp
  | cons c rest ih =>
    intro i
    rw [runChunks]
    simp only [List.map_cons, List.sum_cons]
    have := ih (i + 1)
    split
    · dsimp only
      omega
    · omega

theorem runChunks_not_ok (ok : Nat → Bool) :
    ∀ (cs : List (List Int)) (i : Nat),
      (runChunks ok i cs).1 = false → (runChunks ok i cs).2 = 0 := by
  intro cs
  induction cs with
  | nil =>
    intro i _
    rw [runChunks]
  | cons c rest ih =>
    intro i h
    rw [runChunks] at h ⊢
    split at h
    · cases h
    · rename_i hok
      rw [if_neg hok]
      exact ih (i + 1) h

/-! ## Sonarr: DONE-loop invariants -/

theorem doneGo_caps {cfg : Config} {env : Env} {now : Nat} :
    ∀ (l : List Series) (st st' : BState),
      doneGo cfg env now st l = .ok st' →
      st.rechecked ≤ Arr.effCap cfg.recheckMaxSeries →
      st.searchedSeries ≤ Arr.effCap cfg.searchMaxSeries →
      st.searchedSeries ≤ st.rechecked →
      st.searchedEps ≤ Arr.effCapEps cfg.searchMaxEps →
      st.dispatchedEps ≤ st.searchedEps →
      st'.rechecked ≤ Arr.effCap cfg.recheckMaxSeries ∧
      st'.searchedSeries ≤ Arr.effCap cfg.searchMaxSeries ∧
      st'.searchedSeries ≤ st'.rechecked ∧
      st'.searchedEps ≤ Arr.effCapEps cfg.searchMaxEps ∧
      st'.dispatchedEps ≤ st'.searchedEps := by
  intro l
  induction l with
  | nil =>
    intro st st' h h1 h2 h3 h4 h5
    rw [doneGo] at h
    cases h
    exact ⟨h1, h2, h3, h4, h5⟩
  | cons s rest ih =>
    intro st st' h h1 h2 h3 h4 h5
    rw [doneGo] at h
    split at h
    · cases h
      exact ⟨h1, h2, h3, h4, h5⟩
    · rename_i hcap
      split at h
      · cases h
      · rename_i sid hres
        split at h
        · exact ih _ _ h h1 h2 h3 h4 h5
        · dsimp only at h
          split at h
          · refine ih _ _ h ?_ ?_ ?_ ?_ ?_ <;> dsimp only <;> omega
          · rename_i eps heps
            split at h
            · refine ih _ _ h ?_ ?_ ?_ ?_ ?_ <;> dsimp only <;> omega
            · rename_i hmiss
              split at h
              · refine ih _ _ h ?_ ?_ ?_ ?_ ?_ <;> dsimp only <;> omega
              · rename_i hguard
                push_neg at hguard
                split at h
                · refine ih _ _ h ?_ ?_ ?_ ?_ ?_ <;> dsimp only <;> omega
                · rename_i hts
                  split at h
                  · rename_i hokany
                    have htake : (List.take
                        (Arr.effCapEps cfg.searchMaxEps - st.searchedEps)
                        (missing_aired_episode_ids eps now)).length ≤
                        Arr.effCapEps cfg.searchMaxEps - st.searchedEps := by
                      simp [List.length_take]
                    have hdisp : (runChunks (env.chunkOk sid) 0
                        (chunked (List.take
                          (Arr.effCapEps cfg.searchMaxEps - st.searchedEps)
                          (missing_aired_episode_ids eps now)) 100)).2 ≤
                        (List.take (Arr.effCapEps cfg.searchMaxEps - st.searchedEps)
                          (missing_aired_episode_ids eps now)).length := by
                      calc (runChunks (env.chunkOk sid) 0
                          (chunked (List.take _ (missing_aired_episode_ids eps now)) 100)).2 ≤
                          ((chunked (List.take
                            (Arr.effCapEps cfg.searchMaxEps - st.searchedEps)
                            (missing_aired_episode_ids eps now)) 100).map List.length).sum :=
                            runChunks_le _ _ _
                        _ = _ := chunked_length_sum _ 100 (by norm_num)
                    refine ih _ _ h ?_ ?_ ?_ ?_ ?_ <;> dsimp only <;> omega
                  · rename_i hokany
                    have hz := runChunks_not_ok (env.chunkOk sid) _ 0
                      (by simpa using hokany)
                    refine ih _ _ h ?_ ?_ ?_ ?_ ?_ <;> dsimp only <;> omega

theorem doneGo_wait_untouched {cfg : Config} {env : Env} {now : Nat}
    {hist0 : Arr.Hist} {sid : Int}
    (hw : Arr.should_wait (hist0 sid).lastRecheck cfg.recheckHours now = true) :
    ∀ (l : List Series) (st st' : BState),
      doneGo cfg env now st l = .ok st' →
      st.hist sid = hist0 sid →
      sid ∉ st.recheckedIds → sid ∉ st.searchedSeriesIds →
      st'.hist sid = hist0 sid ∧ sid ∉ st'.recheckedIds ∧
        sid ∉ st'.searchedSeriesIds := by
  intro l
  induction l with
  | nil =>
    intro st st' h hh hr hs
    rw [doneGo] at h
    cases h
    exact ⟨hh, hr, hs⟩
  | cons s rest ih =>
    intro st st' h hh hr hs
    rw [doneGo] at h
    split at h
    · cases h
      exact ⟨hh, hr, hs⟩
    · split at h
      · cases h
      · rename_i sid2 hres
        split at h
        · exact ih _ _ h hh hr hs
        · rename_i hnw
          have hia : sid2 ≠ sid := by
            intro hEq
            rw [hEq, hh] at hnw
            exact hnw hw
          have hh1 : Function.update st.hist sid2
              { lastRecheck := some now
                lastSearched := (st.hist sid2).lastSearched } sid = hist0 sid := by
            rw [Function.update_noteq (Ne.symm hia)]
            exact hh
          have hrid : sid ∉ st.recheckedIds ++ [sid2] := by
            simp only [List.mem_append, List.mem_singleton]
            rintro (hc | hc)
            · exact hr hc
            · exact hia hc.symm
          dsimp only at h
          split at h
          · exact ih _ _ h hh1 hrid hs
          · split at h
            · exact ih _ _ h hh1 hrid hs
            · split at h
              · exact ih _ _ h hh1 hrid hs
              · split at h
                · exact ih _ _ h hh1 hrid hs
                · split at h
                  · refine ih _ _ h ?_ ?_ ?_
                    · dsimp only
                      rw [Function.update_noteq (Ne.symm hia)]
                      exact hh1
                    · exact hrid
                    · dsimp only
                      simp only [List.mem_append, List.mem_singleton]
                      rintro (hc | hc)
                      · exact hs hc
                      · exact hia hc.symm
                  · exact ih _ _ h hh1 hrid hs

theorem doneGo_searched_spec {cfg : Config} {env : Env} {now : Nat}
    (hist0 : Arr.Hist) :
    ∀ (l : List Series) (st st' : BState),
      doneGo cfg env now st l = .ok st' →
      (∀ i, (st.hist i).lastSearched =
        if i ∈ st.searchedSeriesIds then some now else (hist0 i).lastSearched) →
      ∀ i, (st'.hist i).lastSearched =
        if i ∈ st'.searchedSeriesIds then some now
        else (hist0 i).lastSearched := by
  intro l
  induction l with
  | nil =>
    intro st st' h hinv
    rw [doneGo] at h
    cases h
    exact hinv
  | cons s rest ih =>
    intro st st' h hinv
    rw [doneGo] at h
    split at h
    · cases h
      exact hinv
    · split at h
      · cases h
      · rename_i sid hres
        split at h
        · exact ih _ _ h hinv
        · have hinv1 : ∀ i,
              ((Function.update st.hist sid
                { lastRecheck := some now
                  lastSearched := (st.hist sid).lastSearched }) i).lastSearched =
              if i ∈ st.searchedSeriesIds then some now
              else (hist0 i).lastSearched := by
            intro i
            by_cases hia : i = sid
            · subst hia
              simp only [Function.update_same]
              exact hinv _
            · simp only [Function.update_noteq hia]
              exact hinv i
          dsimp only at h
          split at h
          · exact ih _ _ h hinv1
          · split at h
            · exact ih _ _ h hinv1
            · split at h
              · exact ih _ _ h hinv1
              · split at h
                · exact ih _ _ h hinv1
                · split at h
                  · refine ih _ _ h ?_
                    intro i
                    by_cases hia : i = sid
                    · subst hia
                      simp only [Function.update_same, List.mem_append,
                        List.mem_singleton, or_true, if_true]
                    · simp only [Function.update_noteq hia]
                      rw [hinv i]
                      by_cases hmem : i ∈ st.searchedSeriesIds
                      · simp [hmem]
                      · simp [hmem, hia]
                  · exact ih _ _ h hinv1

theorem runChunks_ok_exists (ok : Nat → Bool) :
    ∀ (cs : List (List Int)) (i : Nat),
      (runChunks ok i cs).1 = true → ∃ k, ok k = true := by
  intro cs
  induction cs with
  | nil =>
    intro i h
    rw [runChunks] at h
    cases h
  | cons c rest ih =>
    intro i h
    rw [runChunks] at h
    split at h
    · rename_i hok
      exact ⟨i, hok⟩
    · exact ih (i + 1) h

theorem doneGo_searched_ids_ok {cfg : Config} {env : Env} {now : Nat} :
    ∀ (l : List Series) (st st' : BState),
      doneGo cfg env now st l = .ok st' →
      (∀ i ∈ st.searchedSeriesIds, ∃ k, env.chunkOk i k = true) →
      ∀ i ∈ st'.searchedSeriesIds, ∃ k, env.chunkOk i k = true := by
  intro l
  induction l with
  | nil =>
    intro st st' h hinv
    rw [doneGo] at h
    cases h
    exact hinv
  | cons s rest ih =>
    intro st st' h hinv
    rw [doneGo] at h
    split at h
    · cases h
      exact hinv
    · split at h
      · cases h
      · rename_i sid hres
        split at h
        · exact ih _ _ h hinv
        · dsimp only at h
          split at h
          · exact ih _ _ h hinv
          · rename_i eps heps
            split at h
            · exact ih _ _ h hinv
            · split at h
              · exact ih _ _ h hinv
              · split at h
                · exact ih _ _ h hinv
                · split at h
                  · rename_i hokany
                    refine ih _ _ h ?_
                    intro i hi
                    rcases List.mem_append.mp hi with hi | hi
                    · exact hinv i hi
                    · simp only [List.mem_singleton] at hi
                      subst hi
                      exact runChunks_ok_exists _ _ _ hokany
                  · exact ih _ _ h hinv

theorem doneGo_noCap_agree {cfg : Config} {env : Env} {now : Nat}
    (h1 : cfg.recheckMaxSeries ≤ 0) (h2 : cfg.searchMaxSeries ≤ 0)
    (h3 : cfg.searchMaxEps ≤ 0) :
    ∀ (l : List Series) (st : BState),
      st.rechecked + l.length ≤ 10 ^ 9 →
      st.searchedSeries + l.length ≤ 10 ^ 9 →
      st.searchedEps + epsBudget env now l ≤ 10 ^ 12 →
      doneGo cfg env now st l = doneNoCapGo cfg env now st l := by
  intro l
  induction l with
  | nil =>
    intro st _ _ _
    rw [doneGo, doneNoCapGo]
  | cons s rest ih =>
    intro st hr hs he
    simp only [List.length_cons] at hr hs
    rw [epsBudget] at he
    rw [doneGo, doneNoCapGo]
    rw [if_neg (by rw [Arr.effCap_of_nonpos h1]; omega)]
    cases hres2 : Arr.resolveStrictId s.rid with
    | error e => rfl
    | ok sid =>
      simp only [hres2] at he
      dsimp only
      by_cases hwait : Arr.should_wait (st.hist sid).lastRecheck cfg.recheckHours now = true
      · rw [if_pos hwait, if_pos hwait]
        refine ih _ ?_ ?_ ?_ <;> dsimp only <;> omega
      · rw [if_neg hwait, if_neg hwait]
        cases heps : env.listEpisodes sid with
        | none =>
          simp only [heps] at he
          dsimp only
          refine ih _ ?_ ?_ ?_ <;> dsimp only <;> omega
        | some eps =>
          simp only [heps] at he
          dsimp only
          by_cases hmiss : missing_aired_episode_ids eps now = []
          · rw [if_pos hmiss, if_pos hmiss]
            refine ih _ ?_ ?_ ?_ <;> dsimp only <;> omega
          · rw [if_neg hmiss, if_neg hmiss]
            have hmlen : 1 ≤ (missing_aired_episode_ids eps now).length :=
              List.length_pos.mpr hmiss
            rw [if_neg (by
              rw [Arr.effCap_of_nonpos h2, Arr.effCapEps_of_nonpos h3]
              push_neg
              constructor <;> dsimp only <;> omega)]
            rw [Arr.effCapEps_of_nonpos h3]
            rw [List.take_of_length_le (by omega)]
            rw [if_neg hmiss]
            split
            · refine ih _ ?_ ?_ ?_ <;> dsimp only <;> omega
            · refine ih _ ?_ ?_ ?_ <;> dsimp only <;> omega

/-! ## Sonarr: promotion-loop lemmas -/

theorem promGo_writes_inv {cfg : Config} {env : Env} {now : Nat}
    (hne : cfg.tagSearchId ≠ cfg.tagDoneId) :
    ∀ (l : List Series) (st st' : PromState),
      promGo cfg env now st l = .ok st' →
      (∀ p ∈ st.writes, cfg.tagDoneId ∈ p.2 ∧ cfg.tagSearchId ∉ p.2) →
      ∀ p ∈ st'.writes, cfg.tagDoneId ∈ p.2 ∧ cfg.tagSearchId ∉ p.2 := by
  intro l
  induction l with
  | nil =>
    intro st st' h hinv
    rw [promGo] at h
    cases h
    exact hinv
  | cons s rest ih =>
    intro st st' h hinv
    rw [promGo] at h
    split at h
    · cases h
    · rename_i sid hres
      split at h
      · exact ih _ _ h hinv
      · split at h
        · exact ih _ _ h hinv
        · dsimp only at h
          split at h
          · refine ih _ _ h ?_
            intro p hp
            rcases List.mem_append.mp hp with hp | hp
            · exact hinv p hp
            · simp only [List.mem_singleton] at hp
              subst hp
              constructor
              · rw [Arr.mem_pySortedSet]
                simp
              · rw [Arr.mem_pySortedSet]
                simp only [List.mem_append, List.mem_filter, List.mem_singleton]
                rintro (⟨_, hc⟩ | hc)
                · simp at hc
                · exact hne hc
          · exact ih _ _ h hinv

/-- Unpack a successful sonarr `run` into its promotion and DONE-loop
components. -/
theorem sonarr_run_ok_elim {cfg : Config} {env : Env} {hist0 : Arr.Hist} {now : Nat}
    {seriesAll : List Series} {r : RunResult}
    (hr : run cfg env hist0 now seriesAll = .ok r) :
    ∃ prom b,
      promGo cfg env now { searchToDone := 0, writes := [] }
        (seriesAll.filter fun s => cfg.tagSearchId ∈ s.tags) = .ok prom ∧
      doneGo cfg env now
        { hist := hist0, waitSkipped := 0, rechecked := 0, searchedSeries := 0
          searchedEps := 0, dispatchedEps := 0, recheckedIds := []
          searchedSeriesIds := [] }
        (env.shuffleDone (seriesAll.filter fun s => cfg.tagDoneId ∈ s.tags)) =
          .ok b ∧
      r.searchToDone = prom.searchToDone ∧ r.promWrites = prom.writes ∧
      r.waitSkipped = b.waitSkipped ∧ r.rechecked = b.rechecked ∧
      r.searchedSeries = b.searchedSeries ∧ r.searchedEps = b.searchedEps ∧
      r.dispatchedEps = b.dispatchedEps ∧ r.recheckedIds = b.recheckedIds ∧
      r.searchedSeriesIds = b.searchedSeriesIds ∧ r.hist = b.hist := by
  unfold run at hr
  dsimp only at hr
  split at hr
  · cases hr
  · rename_i prom hProm
    split at hr
    · cases hr
    · rename_i b hB
      cases hr
      exact ⟨prom, b, hProm, hB, rfl, rfl, rfl, rfl, rfl, rfl, rfl, rfl, rfl, rfl⟩

end Sonarr

/-! ## Radarr: DONE-loop lemmas -/

namespace Radarr

theorem loopGo_recheck_stamp {cfg : Config} {now : Nat} :
    ∀ (l : List Movie) (st st' : BState),
      loopGo cfg now st l = .ok st' →
      (∀ i ∈ st.toSearch, (st.hist i).lastRecheck = some now) →
      ∀ i ∈ st'.toSearch, (st'.hist i).lastRecheck = some now := by
  intro l
  induction l with
  | nil =>
    intro st st' h hinv
    rw [loopGo] at h
    cases h
    exact hinv
  | cons m rest ih =>
    intro st st' h hinv
    rw [loopGo] at h
    split at h
    · cases h
      exact hinv
    · split at h
      · cases h
      · rename_i mid hres
        split at h
        · exact ih _ _ h hinv
        · dsimp only at h
          have hinv1 : ∀ i ∈ st.toSearch ++ [mid],
              ((Function.update st.hist mid
                { lastRecheck := some now
                  lastSearched := (st.hist mid).lastSearched }) i).lastRecheck =
              some now := by
            intro i hi
            by_cases hia : i = mid
            · subst hia
              simp only [Function.update_same]
            · simp only [Function.update_noteq hia]
              rcases List.mem_append.mp hi with hi | hi
              · exact hinv i hi
              · simp only [List.mem_singleton] at hi
                exact absurd hi hia
          split at h
          · cases h
            exact hinv1
          · exact ih _ _ h hinv1

theorem loopGo_caps {cfg : Config} {now : Nat} :
    ∀ (l : List Movie) (st st' : BState),
      loopGo cfg now st l = .ok st' →
      st.considered ≤ Arr.effCap cfg.recheckMax →
      st.toSearch.length ≤ st.considered →
      st.toSearch.length < Arr.effCap cfg.searchMax →
      st'.considered ≤ Arr.effCap cfg.recheckMax ∧
      st'.toSearch.length ≤ st'.considered ∧
      st'.toSearch.length ≤ Arr.effCap cfg.searchMax := by
  intro l
  induction l with
  | nil =>
    intro st st' h h1 h2 h3
    rw [loopGo] at h
    cases h
    exact ⟨h1, h2, by omega⟩
  | cons m rest ih =>
    intro st st' h h1 h2 h3
    rw [loopGo] at h
    split at h
    · cases h
      exact ⟨h1, h2, by omega⟩
    · rename_i hcap
      split at h
      · cases h
      · rename_i mid hres
        split at h
        · exact ih _ _ h h1 h2 h3
        · dsimp only at h
          split at h
          · cases h
            refine ⟨?_, ?_, ?_⟩ <;> (try dsimp only) <;>
              (try simp only [List.length_append, List.length_singleton]) <;> omega
          · rename_i hlen
            try dsimp only at hlen
            try simp only [List.length_append, List.length_singleton] at hlen
            refine ih _ _ h ?_ ?_ ?_ <;> (try dsimp only) <;>
              (try simp only [List.length_append, List.length_singleton]) <;> omega

theorem loopGo_lastSearched {cfg : Config} {now : Nat} :
    ∀ (l : List Movie) (st st' : BState),
      loopGo cfg now st l = .ok st' →
      ∀ i, (st'.hist i).lastSearched = (st.hist i).lastSearched := by
  intro l
  induction l with
  | nil =>
    intro st st' h i
    rw [loopGo] at h
    cases h
    rfl
  | cons m rest ih =>
    intro st st' h i
    rw [loopGo] at h
    split at h
    · cases h
      rfl
    · split at h
      · cases h
      · rename_i mid hres
        split at h
        · exact ih _ _ h i
        · dsimp only at h
          have hup : ∀ j,
              ((Function.update st.hist mid
                { lastRecheck := some now
                  lastSearched := (st.hist mid).lastSearched }) j).lastSearched =
              (st.hist j).lastSearched := by
            intro j
            by_cases hj : j = mid
            · subst hj
              simp only [Function.update_same]
            · simp only [Function.update_noteq hj]
          split at h
          · cases h
            exact hup i
          · rw [ih _ _ h i]
            exact hup i

theorem stampSearched_cons (now : Nat) (h : Arr.Hist) (x : Int)
    (rest : List Int) :
    stampSearched now h (x :: rest) =
      stampSearched now
        (Function.update h x { h x with lastSearched := some now }) rest := rfl

theorem stampSearched_lastRecheck (now : Nat) :
    ∀ (ids : List Int) (h : Arr.Hist) (i : Int),
      (stampSearched now h ids i).lastRecheck = (h i).lastRecheck := by
  intro ids
  induction ids with
  | nil =>
    intro h i
    rfl
  | cons x rest ih =>
    intro h i
    rw [stampSearched_cons, ih]
    by_cases hix : i = x
    · subst hix
      simp only [Function.update_same]
    · simp only [Function.update_noteq hix]

theorem stampSearched_lastSearched (now : Nat) :
    ∀ (ids : List Int) (h : Arr.Hist) (i : Int),
      (stampSearched now h ids i).lastSearched =
        if i ∈ ids then some now else (h i).lastSearched := by
  intro ids
  induction ids with
  | nil =>
    intro h i
    simp [stampSearched]
  | cons x rest ih =>
    intro h i
    rw [stampSearched_cons, ih]
    by_cases hmem : i ∈ rest
    · simp [hmem, List.mem_cons]
    · by_cases hix : i = x
      · subst hix
        simp only [hmem, if_false, Function.update_same, List.mem_cons,
          true_or, if_true]
      · simp only [hmem, if_false, Function.update_noteq hix, List.mem_cons]
        rw [if_neg (by
          rintro (hc | hc)
          · exact hix hc
          · exact hc.elim)]

theorem loopGo_noCap_agree {cfg : Config} {now : Nat}
    (h1 : cfg.recheckMax ≤ 0) (h2 : cfg.searchMax ≤ 0) :
    ∀ (l : List Movie) (st : BState),
      st.considered + l.length ≤ 10 ^ 9 →
      st.toSearch.length + l.length ≤ 10 ^ 9 →
      loopGo cfg now st l = loopNoCapGo cfg now st l := by
  intro l
  induction l with
  | nil =>
    intro st _ _
    rw [loopGo, loopNoCapGo]
  | cons m rest ih =>
    intro st hc hs
    simp only [List.length_cons] at hc hs
    rw [loopGo, loopNoCapGo]
    rw [if_neg (by rw [Arr.effCap_of_nonpos h1]; omega)]
    cases hres2 : Arr.resolveStrictId m.rid with
    | error e => rfl
    | ok mid =>
      dsimp only
      by_cases hwait :
          Arr.should_wait (st.hist mid).lastRecheck cfg.recheckHours now = true
      · rw [if_pos hwait, if_pos hwait]
        refine ih _ ?_ ?_ <;> (try dsimp only) <;> omega
      · rw [if_neg hwait, if_neg hwait]
        cases rest with
        | nil =>
          rw [loopNoCapGo]
          split
          · rfl
          · rw [loopGo]
        | cons m2 rest2 =>
          have h2c : Arr.effCap cfg.searchMax = 10 ^ 9 := Arr.effCap_of_nonpos h2
          rw [if_neg (by
            try dsimp only
            simp only [List.length_append, List.length_cons,
              List.length_nil] at hs ⊢
            omega)]
          refine ih _ ?_ ?_
          · try dsimp only
            simp only [List.length_cons] at hc ⊢
            omega
          · try dsimp only
            simp only [List.length_append, List.length_cons,
              List.length_nil] at hs ⊢
            omega

/-- Unpack a successful radarr DONE-phase `run` into the loop result and
the dispatch outcome. -/
theorem radarr_run_ok_elim {cfg : Config} {env : Env} {hist0 : Arr.Hist} {now : Nat}
    {movies : List Movie} {r : RunResult}
    (hr : run cfg env hist0 now movies = .ok r) :
    ∃ b : BState,
      loopGo cfg now
        { hist := hist0, waitSkipped := 0, considered := 0, toSearch := [] }
        (env.shuffleDone
          ((movies.filter fun m => cfg.tagDoneId ∈ m.tags).filter
            fun m => !m.hasFile)) = .ok b ∧
      r.waitSkipped = b.waitSkipped ∧ r.considered = b.considered ∧
      r.toSearch = b.toSearch ∧
      ((b.toSearch ≠ [] ∧ env.moviesSearchOk = true) →
        r.searched = b.toSearch.length ∧
        r.hist = stampSearched now b.hist b.toSearch) ∧
      (¬(b.toSearch ≠ [] ∧ env.moviesSearchOk = true) →
        r.searched = 0 ∧ r.hist = b.hist) := by
  unfold run at hr
  dsimp only at hr
  split at hr
  · cases hr
  · rename_i b hB
    split at hr
    · rename_i hcond
      cases hr
      exact ⟨b, hB, rfl, rfl, rfl, fun _ => ⟨rfl, rfl⟩,
        fun hc => absurd hcond hc⟩
    · rename_i hcond
      cases hr
      exact ⟨b, hB, rfl, rfl, rfl, fun hc => absurd hc hcond,
        fun _ => ⟨rfl, rfl⟩⟩

end Radarr

/-! ## Counting lemmas for the disabled-cap comparison -/

theorem c10_flip_count :
    ∀ (n s : Nat) (st : Lidarr.AState),
      (∀ m : Nat, s ≤ m → st.bt ((m : Int) + 1) = [1]) →
      ∃ st', Lidarr.phaseAGo Cex.c10Cfg Cex.lidarrEnvOk [] st
          (Cex.c10ItemsFrom s n) = .ok st' ∧
        st'.flipped = st.flipped + min (10 ^ 9 - st.flipped) n := by
  intro n
  induction n with
  | zero =>
    intro s st hbt
    refine ⟨st, ?_, by simp⟩
    rw [Cex.c10ItemsFrom, Lidarr.phaseAGo]
  | succ n ih =>
    intro s st hbt
    rw [Cex.c10ItemsFrom]
    have hcapval : Arr.effCap Cex.c10Cfg.searchToDoneMax = 10 ^ 9 :=
      Arr.effCap_of_nonpos le_rfl
    by_cases hcap : st.flipped ≥ Arr.effCap Cex.c10Cfg.searchToDoneMax
    · refine ⟨st, Lidarr.phaseAGo_stop_of_cap hcap _, ?_⟩
      rw [hcapval] at hcap
      omega
    · rw [Lidarr.phaseAGo]
      rw [if_neg hcap]
      dsimp only [Arr.resolveLidarrId]
      rw [if_neg (by omega)]
      rw [if_neg (List.not_mem_nil _)]
      simp only [Cex.lidarrEnvOk, if_true]
      rw [hbt s le_rfl]
      rw [if_neg (by decide)]
      have hbt2 : ∀ m : Nat, s + 1 ≤ m →
          (Function.update st.bt ((s : Int) + 1)
            (Arr.replace_tag_list [1] Cex.c10Cfg.tagSearchId
              Cex.c10Cfg.tagDoneId)) ((m : Int) + 1) = [1] := by
        intro m hm
        rw [Function.update_noteq (by intro hEq; omega)]
        exact hbt m (by omega)
      rcases ih (s + 1)
        { bt := Function.update st.bt ((s : Int) + 1)
            (Arr.replace_tag_list [1] Cex.c10Cfg.tagSearchId Cex.c10Cfg.tagDoneId)
          flipped := st.flipped + 1
          writes := st.writes ++ [((s : Int) + 1,
            Arr.replace_tag_list [1] Cex.c10Cfg.tagSearchId Cex.c10Cfg.tagDoneId)] }
        hbt2 with ⟨st', hrun, hflip⟩
      refine ⟨st', hrun, ?_⟩
      rw [hflip]
      dsimp only
      rw [hcapval] at hcap
      omega

theorem c10_noCap_count :
    ∀ (n s : Nat) (st : Lidarr.AState),
      (∀ m : Nat, s ≤ m → st.bt ((m : Int) + 1) = [1]) →
      ∃ st', Lidarr.phaseANoCapGo Cex.c10Cfg Cex.lidarrEnvOk [] st
          (Cex.c10ItemsFrom s n) = .ok st' ∧
        st'.flipped = st.flipped + n := by
  intro n
  induction n with
  | zero =>
    intro s st hbt
    refine ⟨st, ?_, by simp⟩
    rw [Cex.c10ItemsFrom, Lidarr.phaseANoCapGo]
  | succ n ih =>
    intro s st hbt
    rw [Cex.c10ItemsFrom]
    rw [Lidarr.phaseANoCapGo]
    dsimp only [Arr.resolveLidarrId]
    rw [if_neg (by omega)]
    rw [if_neg (List.not_mem_nil _)]
    simp only [Cex.lidarrEnvOk, if_true]
    rw [hbt s le_rfl]
    rw [if_neg (by decide)]
    have hbt2 : ∀ m : Nat, s + 1 ≤ m →
        (Function.update st.bt ((s : Int) + 1)
          (Arr.replace_tag_list [1] Cex.c10Cfg.tagSearchId
            Cex.c10Cfg.tagDoneId)) ((m : Int) + 1) = [1] := by
      intro m hm
      rw [Function.update_noteq (by intro hEq; omega)]
      exact hbt m (by omega)
    rcases ih (s + 1)
      { bt := Function.update st.bt ((s : Int) + 1)
          (Arr.replace_tag_list [1] Cex.c10Cfg.tagSearchId Cex.c10Cfg.tagDoneId)
        flipped := st.flipped + 1
        writes := st.writes ++ [((s : Int) + 1,
          Arr.replace_tag_list [1] Cex.c10Cfg.tagSearchId Cex.c10Cfg.tagDoneId)] }
      hbt2 with ⟨st', hrun, hflip⟩
    refine ⟨st', hrun, ?_⟩
    rw [hflip]
    dsimp only
    omega

/-! ## The claims -/

/-- C1 counterexample: with the promotion cap configured to 1 and two
SEARCH-tagged artists that the oracle reports as not missing, the artist
processed second still carries the SEARCH tag and has not gained the DONE
tag after one engine run, so it is not true that every SEARCH-tagged
not-missing item ends the run holding exactly the DONE tag. -/
theorem c1_counterexample :
    Lidarr.run Cex.lidarrCfg1 Cex.lidarrEnvOk Cex.histEmpty 1000
      Cex.twoSearchArtists = .ok Cex.c1Run ∧
    Lidarr.missing_artist_ids Cex.lidarrEnvOk.fetchPage
      Cex.lidarrCfg1.wantedMaxPages Cex.lidarrCfg1.wantedPageSize = some [] ∧
    Cex.lidarrCfg1.tagSearchId ∈ (Cex.twoSearchArtists.get ⟨1, by decide⟩).tags ∧
    Cex.lidarrCfg1.tagSearchId ∈ Cex.c1Run.tags 2 ∧
    Cex.lidarrCfg1.tagDoneId ∉ Cex.c1Run.tags 2 :=
  ⟨rfl, rfl, by decide, by decide, by decide⟩

/-- C1 (amended): every item the run actually promotes — processed within
the promotion cap, with a tag update that was dispatched and succeeded —
ends with a tag set containing the DONE tag and not the SEARCH tag
(the two configured tag ids being distinct); items beyond the cap, or
whose update failed, keep their previous tags.  This holds for the
aggregate (lidarr) engine's final backend tag state and for the
hierarchical (sonarr) engine's promotion writes. -/
theorem c1_amended :
    (∀ (cfg : Lidarr.Config) (env : Lidarr.Env) (hist0 : Arr.Hist) (now : Nat)
        (artists : List Lidarr.Artist) (r : Lidarr.RunResult),
      cfg.tagSearchId ≠ cfg.tagDoneId →
      Lidarr.run cfg env hist0 now artists = .ok r →
      ∀ i ∈ r.tagWrites.map Prod.fst,
        cfg.tagDoneId ∈ r.tags i ∧ cfg.tagSearchId ∉ r.tags i) ∧
    (∀ (cfg : Sonarr.Config) (env : Sonarr.Env) (hist0 : Arr.Hist) (now : Nat)
        (seriesAll : List Sonarr.Series) (r : Sonarr.RunResult),
      cfg.tagSearchId ≠ cfg.tagDoneId →
      Sonarr.run cfg env hist0 now seriesAll = .ok r →
      ∀ p ∈ r.promWrites, cfg.tagDoneId ∈ p.2 ∧ cfg.tagSearchId ∉ p.2) := by
  constructor
  · intro cfg env hist0 now artists r hne hr i hi
    rcases Lidarr.lidarr_run_ok_elim hr with
      ⟨_, _, hw, _⟩ | ⟨missIds, aSt, eSt, hor, hA, hE, htags, hwrites, _⟩
    · rw [hw] at hi
      simp at hi
    · rcases List.mem_map.mp hi with ⟨p, hp, rfl⟩
      rw [hwrites] at hp
      have hinv := Lidarr.phaseAGo_writes_inv hne _ _ _ hA
        (fun q hq => absurd hq (List.not_mem_nil q))
      rw [htags]
      exact hinv p hp
  · intro cfg env hist0 now seriesAll r hne hr p hp
    rcases Sonarr.sonarr_run_ok_elim hr with ⟨prom, b, hProm, hB, _, hw, _⟩
    rw [hw] at hp
    exact Sonarr.promGo_writes_inv hne _ _ _ hProm
      (fun q hq => absurd hq (List.not_mem_nil q)) p hp

/-- C1 (amended) witness: artist 1 is promoted by the concrete run and
ends with DONE and without SEARCH; series 3 is promoted by the concrete
sonarr run and its written tag set is DONE-only. -/
theorem c1_amended_witness :
    (Cex.lidarrCfg1.tagSearchId ≠ Cex.lidarrCfg1.tagDoneId ∧
      Cex.lidarrCfg1.tagDoneId ∈ Cex.c1Run.tags 1 ∧
      Cex.lidarrCfg1.tagSearchId ∉ Cex.c1Run.tags 1) ∧
    (Cex.sonarrCfg.tagSearchId ≠ Cex.sonarrCfg.tagDoneId ∧
      Cex.sonarrCfg.tagDoneId ∈ (3, [2]).2 ∧
      Cex.sonarrCfg.tagSearchId ∉ ((3 : Int), [(2 : Int)]).2) :=
  ⟨⟨by decide,
    c1_amended.1 Cex.lidarrCfg1 Cex.lidarrEnvOk Cex.histEmpty 1000
      Cex.twoSearchArtists Cex.c1Run (by decide) rfl 1 (by decide)⟩,
   ⟨by decide,
    c1_amended.2 Cex.sonarrCfg Cex.sonarrEnv Cex.histEmpty 1000
      Cex.sonarrSeries Cex.sonarrRun1 (by decide) rfl ((3 : Int), [(2 : Int)])
      (by decide)⟩⟩

/-- C2: if even the first wanted/missing page cannot be fetched after all
retries, the oracle reports itself unavailable, and an unavailable oracle
makes the run return before any mutation: nothing is written to the state
file, no tag update is issued, no search command is dispatched, the
in-memory history equals the loaded one, and the backend tag state is
untouched. -/
theorem c2_oracle_unavailable_inert :
    (∀ (cfg : Lidarr.Config) (env : Lidarr.Env),
      1 ≤ cfg.wantedMaxPages → env.fetchPage 1 = none →
      Lidarr.missing_artist_ids env.fetchPage cfg.wantedMaxPages
        cfg.wantedPageSize = none) ∧
    (∀ (cfg : Lidarr.Config) (env : Lidarr.Env) (hist0 : Arr.Hist) (now : Nat)
        (artists : List Lidarr.Artist) (r : Lidarr.RunResult),
      Lidarr.missing_artist_ids env.fetchPage cfg.wantedMaxPages
        cfg.wantedPageSize = none →
      Lidarr.run cfg env hist0 now artists = .ok r →
      r.written = none ∧ r.tagWrites = [] ∧ r.searchedIds = [] ∧
        r.consideredIds = [] ∧ r.hist = hist0 ∧ r.tags = env.backendTags) :=
  ⟨fun _ _ h1 h2 => Lidarr.missing_artist_ids_none_of_first_page h1 h2,
   fun _ _ _ _ _ _ hor hr => Lidarr.run_oracle_none hor hr⟩

/-- C2 witness: with every page fetch failing, the concrete run leaves
the state file unwritten, issues no tag update and no search command, and
keeps the loaded history. -/
theorem c2_witness :
    1 ≤ Cex.lidarrCfg1.wantedMaxPages ∧
    Cex.lidarrEnvDown.fetchPage 1 = none ∧
    Lidarr.missing_artist_ids Cex.lidarrEnvDown.fetchPage
      Cex.lidarrCfg1.wantedMaxPages Cex.lidarrCfg1.wantedPageSize = none ∧
    Cex.c2Run.written = none ∧ Cex.c2Run.tagWrites = [] ∧
    Cex.c2Run.searchedIds = [] ∧ Cex.c2Run.hist = Cex.histEmpty :=
  ⟨by decide, rfl,
   c2_oracle_unavailable_inert.1 Cex.lidarrCfg1 Cex.lidarrEnvDown (by decide) rfl,
   (c2_oracle_unavailable_inert.2 Cex.lidarrCfg1 Cex.lidarrEnvDown Cex.histEmpty
     1000 Cex.twoSearchArtists Cex.c2Run
     (c2_oracle_unavailable_inert.1 Cex.lidarrCfg1 Cex.lidarrEnvDown (by decide) rfl)
     rfl).1,
   (c2_oracle_unavailable_inert.2 Cex.lidarrCfg1 Cex.lidarrEnvDown Cex.histEmpty
     1000 Cex.twoSearchArtists Cex.c2Run
     (c2_oracle_unavailable_inert.1 Cex.lidarrCfg1 Cex.lidarrEnvDown (by decide) rfl)
     rfl).2.1,
   (c2_oracle_unavailable_inert.2 Cex.lidarrCfg1 Cex.lidarrEnvDown Cex.histEmpty
     1000 Cex.twoSearchArtists Cex.c2Run
     (c2_oracle_unavailable_inert.1 Cex.lidarrCfg1 Cex.lidarrEnvDown (by decide) rfl)
     rfl).2.2.1,
   (c2_oracle_unavailable_inert.2 Cex.lidarrCfg1 Cex.lidarrEnvDown Cex.histEmpty
     1000 Cex.twoSearchArtists Cex.c2Run
     (c2_oracle_unavailable_inert.1 Cex.lidarrCfg1 Cex.lidarrEnvDown (by decide) rfl)
     rfl).2.2.2.2.1⟩

/-- C3: every item the run considers in Phase B is stamped
`lastRecheckAt = now` in the history store unconditionally — for the
lidarr engine this holds for every environment, including ones where the
search command is capped away or fails; for the radarr engine every
queued (considered) movie is stamped whether or not the batched search
command succeeds. -/
theorem c3_considered_always_stamped :
    (∀ (cfg : Lidarr.Config) (env : Lidarr.Env) (hist0 : Arr.Hist) (now : Nat)
        (artists : List Lidarr.Artist) (r : Lidarr.RunResult),
      Lidarr.run cfg env hist0 now artists = .ok r →
      ∀ i ∈ r.consideredIds, (r.hist i).lastRecheck = some now) ∧
    (∀ (cfg : Radarr.Config) (env : Radarr.Env) (hist0 : Arr.Hist) (now : Nat)
        (movies : List Radarr.Movie) (r : Radarr.RunResult),
      Radarr.run cfg env hist0 now movies = .ok r →
      ∀ i ∈ r.toSearch, (r.hist i).lastRecheck = some now) := by
  constructor
  · intro cfg env hist0 now artists r hr i hi
    rcases Lidarr.lidarr_run_ok_elim hr with
      ⟨_, _, _, hcons, _⟩ | ⟨missIds, aSt, eSt, hor, hA, hE, _, _, _, _, _, hb⟩
    · rw [hcons] at hi
      simp at hi
    · rcases hb with ⟨_, _, hcons, _, hhist, _⟩
      rw [hcons] at hi
      rw [hhist]
      exact Lidarr.consideredGo_recheck_stamp _ _
        (fun j hj => absurd hj (List.not_mem_nil j)) i hi
  · intro cfg env hist0 now movies r hr i hi
    rcases Radarr.radarr_run_ok_elim hr with ⟨b, hB, _, _, hts, hpos, hneg⟩
    rw [hts] at hi
    have hbase := Radarr.loopGo_recheck_stamp _ _ _ hB
      (fun j hj => absurd hj (List.not_mem_nil j)) i hi
    by_cases hcond : b.toSearch ≠ [] ∧ env.moviesSearchOk = true
    · rcases hpos hcond with ⟨_, hh⟩
      rw [hh, Radarr.stampSearched_lastRecheck]
      exact hbase
    · rcases hneg hcond with ⟨_, hh⟩
      rw [hh]
      exact hbase

/-- C3 witness: in the concrete lidarr run both eligible artists are
considered and stamped; in the concrete radarr run with a failing
`MoviesSearch` command, the queued movie is still stamped. -/
theorem c3_witness :
    (1 ∈ Cex.c8WitRun.consideredIds ∧
      (Cex.c8WitRun.hist 1).lastRecheck = some 1000) ∧
    (7 ∈ Cex.radarrRunFail.toSearch ∧
      (Cex.radarrRunFail.hist 7).lastRecheck = some 1000) :=
  ⟨⟨by decide,
    c3_considered_always_stamped.1 Cex.lidarrCfg1 Cex.lidarrEnvMiss Cex.histEmpty
      1000 Cex.twoDoneArtists Cex.c8WitRun rfl 1 (by decide)⟩,
   ⟨by decide,
    c3_considered_always_stamped.2 Cex.radarrCfg Cex.radarrEnvFail Cex.histEmpty
      1000 Cex.oneMovie Cex.radarrRunFail rfl 7 (by decide)⟩⟩

/-- C4: an item in DONE with `isMissing = true` whose history record holds
`lastRecheckAt = t` with `now < t + RECHECK_INTERVAL` is excluded from the
considered and searched items, and its history record is exactly its
pre-run value — for the lidarr engine (given that the Phase B shuffle is
a permutation) and for the sonarr engine. -/
theorem c4_cooldown_excludes_and_preserves :
    (∀ (cfg : Lidarr.Config) (env : Lidarr.Env) (hist0 : Arr.Hist) (now : Nat)
        (artists : List Lidarr.Artist) (r : Lidarr.RunResult) (aid : Int) (t : Nat),
      (∀ l, (env.shuffleB l).Perm l) →
      Lidarr.run cfg env hist0 now artists = .ok r →
      (hist0 aid).lastRecheck = some t →
      now < t + cfg.recheckHours * 3600 →
      aid ∉ r.consideredIds ∧ aid ∉ r.searchedIds ∧ r.hist aid = hist0 aid) ∧
    (∀ (cfg : Sonarr.Config) (env : Sonarr.Env) (hist0 : Arr.Hist) (now : Nat)
        (seriesAll : List Sonarr.Series) (r : Sonarr.RunResult) (sid : Int) (t : Nat),
      Sonarr.run cfg env hist0 now seriesAll = .ok r →
      (hist0 sid).lastRecheck = some t →
      now < t + cfg.recheckHours * 3600 →
      sid ∉ r.recheckedIds ∧ sid ∉ r.searchedSeriesIds ∧
        r.hist sid = hist0 sid) := by
  constructor
  · intro cfg env hist0 now artists r aid t hperm hr hrec hlt
    rcases Lidarr.lidarr_run_ok_elim hr with
      ⟨_, _, _, hcons, hsearch, _, hhist, _⟩ |
      ⟨missIds, aSt, eSt, hor, hA, hE, _, _, _, _, helig, hb⟩
    · rw [hcons, hsearch, hhist]
      exact ⟨List.not_mem_nil aid, List.not_mem_nil aid, rfl⟩
    · rcases hb with ⟨_, _, hcons, hsearch, hhist, _⟩
      have hgate : (Arr.should_recheck (hist0 aid).lastRecheck
          cfg.recheckHours now).1 = true := by
        rw [hrec]
        exact Arr.should_recheck_on_wait hlt
      have hnelig : aid ∉ eSt.elig :=
        Lidarr.eligGo_not_mem_of_wait hgate _ _ _ hE (List.not_mem_nil aid)
      have hnshuf : aid ∉ env.shuffleB eSt.elig := fun hc =>
        hnelig ((hperm eSt.elig).mem_iff.mp hc)
      rcases Lidarr.consideredGo_untouched (env.shuffleB eSt.elig) _ hnshuf with
        ⟨hh, hc, hs⟩
      rw [hcons, hsearch, hhist]
      exact ⟨hc (List.not_mem_nil aid), hs (List.not_mem_nil aid), hh⟩
  · intro cfg env hist0 now seriesAll r sid t hr hrec hlt
    rcases Sonarr.sonarr_run_ok_elim hr with
      ⟨prom, b, hProm, hB, _, _, _, _, _, _, _, hrech, hsearch, hhist⟩
    have hw : Arr.should_wait (hist0 sid).lastRecheck
        cfg.recheckHours now = true := by
      rw [hrec]
      exact Arr.should_wait_on_wait hlt
    rcases Sonarr.doneGo_wait_untouched hw _ _ _ hB rfl (List.not_mem_nil sid)
      (List.not_mem_nil sid) with ⟨hh, hc, hs⟩
    rw [hrech, hsearch, hhist]
    exact ⟨hc, hs, hh⟩

/-- C4 witness: with every history record showing a recheck at time 900,
an interval of 24 hours and the run at time 1000, artist 1 and series 1
are excluded everywhere and their records are unchanged. -/
theorem c4_witness :
    ((Cex.histRecent 1).lastRecheck = some 900 ∧
      1000 < 900 + Cex.lidarrCfg2.recheckHours * 3600 ∧
      1 ∉ Cex.c4Run.consideredIds ∧ 1 ∉ Cex.c4Run.searchedIds ∧
      Cex.c4Run.hist 1 = Cex.histRecent 1) ∧
    (1 ∉ Cex.sonarrRun2.recheckedIds ∧ 1 ∉ Cex.sonarrRun2.searchedSeriesIds ∧
      Cex.sonarrRun2.hist 1 = Cex.histRecent 1) := by
  have h1 := c4_cooldown_excludes_and_preserves.1 Cex.lidarrCfg2 Cex.lidarrEnvMiss
    Cex.histRecent 1000 Cex.twoDoneArtists Cex.c4Run 1 900
    (fun l => List.Perm.refl l) rfl rfl (by decide)
  have h2 := c4_cooldown_excludes_and_preserves.2 Cex.sonarrCfg Cex.sonarrEnv
    Cex.histRecent 1000 Cex.sonarrSeries Cex.sonarrRun2 1 900 rfl rfl (by decide)
  exact ⟨⟨rfl, by decide, h1.1, h1.2.1, h1.2.2⟩, ⟨h2.1, h2.2.1, h2.2.2⟩⟩

/-- C5: per run, searched never exceeds the search cap, considered never
exceeds the recheck cap, and considered is at least searched, for all
three engines; for the hierarchical (sonarr) engine the episodes actually
dispatched additionally never exceed the episode budget. -/
theorem c5_caps_respected :
    (∀ (cfg : Lidarr.Config) (env : Lidarr.Env) (hist0 : Arr.Hist) (now : Nat)
        (artists : List Lidarr.Artist) (r : Lidarr.RunResult),
      Lidarr.run cfg env hist0 now artists = .ok r →
      r.searched ≤ r.considered ∧
      (0 < cfg.doneRecheckMax → r.considered ≤ cfg.doneRecheckMax.toNat) ∧
      (0 < cfg.doneSearchMax → r.searched ≤ cfg.doneSearchMax.toNat)) ∧
    (∀ (cfg : Sonarr.Config) (env : Sonarr.Env) (hist0 : Arr.Hist) (now : Nat)
        (seriesAll : List Sonarr.Series) (r : Sonarr.RunResult),
      Sonarr.run cfg env hist0 now seriesAll = .ok r →
      r.searchedSeries ≤ r.rechecked ∧
      (0 < cfg.recheckMaxSeries → r.rechecked ≤ cfg.recheckMaxSeries.toNat) ∧
      (0 < cfg.searchMaxSeries → r.searchedSeries ≤ cfg.searchMaxSeries.toNat) ∧
      (0 < cfg.searchMaxEps → r.dispatchedEps ≤ cfg.searchMaxEps.toNat)) ∧
    (∀ (cfg : Radarr.Config) (env : Radarr.Env) (hist0 : Arr.Hist) (now : Nat)
        (movies : List Radarr.Movie) (r : Radarr.RunResult),
      Radarr.run cfg env hist0 now movies = .ok r →
      r.searched ≤ r.considered ∧
      (0 < cfg.recheckMax → r.considered ≤ cfg.recheckMax.toNat) ∧
      (0 < cfg.searchMax → r.searched ≤ cfg.searchMax.toNat)) := by
  refine ⟨?_, ?_, ?_⟩
  · intro cfg env hist0 now artists r hr
    rcases Lidarr.lidarr_run_ok_elim hr with
      ⟨_, _, _, _, _, _, _, _, hcons, hsearch⟩ |
      ⟨missIds, aSt, eSt, hor, hA, hE, _, _, _, _, _, hb⟩
    · rw [hcons, hsearch]
      exact ⟨le_rfl, fun _ => Nat.zero_le _, fun _ => Nat.zero_le _⟩
    · rcases hb with ⟨hcons, hsearch, _, _, _, _⟩
      rcases Lidarr.consideredGo_caps (env.shuffleB eSt.elig)
        { hist := hist0, considered := 0, searched := 0
          consideredIds := [], searchedIds := [] }
        (Nat.zero_le _) (Nat.zero_le _) le_rfl with ⟨hc, hs, hle⟩
      rw [hcons, hsearch]
      refine ⟨hle, fun hpos => ?_, fun hpos => ?_⟩
      · rw [Arr.effCap_of_pos hpos] at hc
        exact hc
      · rw [Arr.effCap_of_pos hpos] at hs
        exact hs
  · intro cfg env hist0 now seriesAll r hr
    rcases Sonarr.sonarr_run_ok_elim hr with
      ⟨prom, b, hProm, hB, _, _, _, hrech, hss, hse, hde, _, _, _⟩
    rcases Sonarr.doneGo_caps _ _ _ hB (Nat.zero_le _) (Nat.zero_le _) le_rfl
      (Nat.zero_le _) le_rfl with ⟨h1, h2, h3, h4, h5⟩
    rw [hrech, hss, hde]
    refine ⟨h3, fun hpos => ?_, fun hpos => ?_, fun hpos => ?_⟩
    · rw [Arr.effCap_of_pos hpos] at h1
      exact h1
    · rw [Arr.effCap_of_pos hpos] at h2
      exact h2
    · rw [Arr.effCapEps_of_pos hpos] at h4
      exact le_trans h5 h4
  · intro cfg env hist0 now movies r hr
    rcases Radarr.radarr_run_ok_elim hr with ⟨b, hB, _, hcons, hts, hpos, hneg⟩
    rcases Radarr.loopGo_caps _ _ _ hB (Nat.zero_le _) (Nat.zero_le _)
      (Arr.effCap_pos _) with ⟨h1, h2, h3⟩
    rw [hcons]
    by_cases hcond : b.toSearch ≠ [] ∧ env.moviesSearchOk = true
    · rcases hpos hcond with ⟨hsv, _⟩
      rw [hsv]
      refine ⟨h2, fun hp => ?_, fun hp => ?_⟩
      · rw [Arr.effCap_of_pos hp] at h1
        exact h1
      · rw [Arr.effCap_of_pos hp] at h3
        exact h3
    · rcases hneg hcond with ⟨hsv, _⟩
      rw [hsv]
      refine ⟨Nat.zero_le _, fun hp => ?_, fun _ => Nat.zero_le _⟩
      rw [Arr.effCap_of_pos hp] at h1
      exact h1

/-- C5 witness: the concrete runs respect their configured caps. -/
theorem c5_witness :
    (Cex.c8WitRun.searched ≤ Cex.c8WitRun.considered ∧
      Cex.c8WitRun.considered ≤ Cex.lidarrCfg1.doneRecheckMax.toNat ∧
      Cex.c8WitRun.searched ≤ Cex.lidarrCfg1.doneSearchMax.toNat) ∧
    (Cex.sonarrRun1.searchedSeries ≤ Cex.sonarrRun1.rechecked ∧
      Cex.sonarrRun1.rechecked ≤ Cex.sonarrCfg.recheckMaxSeries.toNat ∧
      Cex.sonarrRun1.searchedSeries ≤ Cex.sonarrCfg.searchMaxSeries.toNat ∧
      Cex.sonarrRun1.dispatchedEps ≤ Cex.sonarrCfg.searchMaxEps.toNat) ∧
    (Cex.radarrRun1.searched ≤ Cex.radarrRun1.considered ∧
      Cex.radarrRun1.considered ≤ Cex.radarrCfg.recheckMax.toNat ∧
      Cex.radarrRun1.searched ≤ Cex.radarrCfg.searchMax.toNat) := by
  have h1 := c5_caps_respected.1 Cex.lidarrCfg1 Cex.lidarrEnvMiss Cex.histEmpty
    1000 Cex.twoDoneArtists Cex.c8WitRun rfl
  have h2 := c5_caps_respected.2.1 Cex.sonarrCfg Cex.sonarrEnv Cex.histEmpty
    1000 Cex.sonarrSeries Cex.sonarrRun1 rfl
  have h3 := c5_caps_respected.2.2 Cex.radarrCfg Cex.radarrEnv Cex.histEmpty
    1000 Cex.oneMovie Cex.radarrRun1 rfl
  exact ⟨⟨h1.1, h1.2.1 (by decide), h1.2.2 (by decide)⟩,
    ⟨h2.1, h2.2.1 (by decide), h2.2.2.1 (by decide), h2.2.2.2 (by decide)⟩,
    ⟨h3.1, h3.2.1 (by decide), h3.2.2 (by decide)⟩⟩

/-- C6: an item's `lastSearchedAt` is stamped to the run's timestamp
exactly when its search dispatch succeeded, and is otherwise exactly its
pre-run value — for lidarr each successfully dispatched item (whose
command call must have succeeded in the environment), for sonarr each
series with at least one successful `EpisodeSearch` chunk, and for radarr
each queued movie exactly when the single batched command succeeded. -/
theorem c6_lastSearched_iff_dispatch :
    (∀ (cfg : Lidarr.Config) (env : Lidarr.Env) (hist0 : Arr.Hist) (now : Nat)
        (artists : List Lidarr.Artist) (r : Lidarr.RunResult),
      Lidarr.run cfg env hist0 now artists = .ok r →
      (∀ i, (r.hist i).lastSearched =
        if i ∈ r.searchedIds then some now else (hist0 i).lastSearched) ∧
      (∀ i ∈ r.searchedIds, env.searchCmdOk i = true)) ∧
    (∀ (cfg : Sonarr.Config) (env : Sonarr.Env) (hist0 : Arr.Hist) (now : Nat)
        (seriesAll : List Sonarr.Series) (r : Sonarr.RunResult),
      Sonarr.run cfg env hist0 now seriesAll = .ok r →
      (∀ i, (r.hist i).lastSearched =
        if i ∈ r.searchedSeriesIds then some now else (hist0 i).lastSearched) ∧
      (∀ i ∈ r.searchedSeriesIds, ∃ k, env.chunkOk i k = true)) ∧
    (∀ (cfg : Radarr.Config) (env : Radarr.Env) (hist0 : Arr.Hist) (now : Nat)
        (movies : List Radarr.Movie) (r : Radarr.RunResult),
      Radarr.run cfg env hist0 now movies = .ok r →
      ∀ i, (r.hist i).lastSearched =
        if env.moviesSearchOk = true ∧ i ∈ r.toSearch then some now
        else (hist0 i).lastSearched) := by
  refine ⟨?_, ?_, ?_⟩
  · intro cfg env hist0 now artists r hr
    rcases Lidarr.lidarr_run_ok_elim hr with
      ⟨_, _, _, _, hsearch, _, hhist, _⟩ |
      ⟨missIds, aSt, eSt, hor, hA, hE, _, _, _, _, _, hb⟩
    · rw [hsearch, hhist]
      exact ⟨fun i => by simp, fun i hi => absurd hi (List.not_mem_nil i)⟩
    · rcases hb with ⟨_, _, _, hsearch, hhist, _⟩
      rcases Lidarr.consideredGo_searched_spec hist0 (env.shuffleB eSt.elig)
        { hist := hist0, considered := 0, searched := 0
          consideredIds := [], searchedIds := [] }
        (fun i => by simp) (fun i hi => absurd hi (List.not_mem_nil i)) with
        ⟨hs1, hs2⟩
      rw [hsearch, hhist]
      exact ⟨hs1, hs2⟩
  · intro cfg env hist0 now seriesAll r hr
    rcases Sonarr.sonarr_run_ok_elim hr with
      ⟨prom, b, hProm, hB, _, _, _, _, _, _, _, _, hss, hhist⟩
    rw [hss, hhist]
    exact ⟨Sonarr.doneGo_searched_spec hist0 _ _ _ hB (fun i => by simp),
      Sonarr.doneGo_searched_ids_ok _ _ _ hB
        (fun i hi => absurd hi (List.not_mem_nil i))⟩
  · intro cfg env hist0 now movies r hr i
    rcases Radarr.radarr_run_ok_elim hr with ⟨b, hB, _, _, hts, hpos, hneg⟩
    have hbase := Radarr.loopGo_lastSearched _ _ _ hB
    rw [hts]
    by_cases hcond : b.toSearch ≠ [] ∧ env.moviesSearchOk = true
    · rcases hpos hcond with ⟨_, hh⟩
      rw [hh, Radarr.stampSearched_lastSearched]
      by_cases hmem : i ∈ b.toSearch
      · simp [hmem, hcond.2]
      · simp [hmem, hbase i]
    · rcases hneg hcond with ⟨_, hh⟩
      rw [hh, hbase i]
      rw [if_neg (fun hc => hcond ⟨List.ne_nil_of_mem hc.2, hc.1⟩)]

/-- C6 witness: in the concrete runs, a successfully dispatched item is
stamped at the run time and a failed batched dispatch stamps nothing. -/
theorem c6_witness :
    ((Cex.c8WitRun.hist 1).lastSearched =
      (if 1 ∈ Cex.c8WitRun.searchedIds then some 1000
        else (Cex.histEmpty 1).lastSearched) ∧
      1 ∈ Cex.c8WitRun.searchedIds ∧
      Cex.lidarrEnvMiss.searchCmdOk 1 = true) ∧
    ((Cex.sonarrRun1.hist 1).lastSearched =
      (if 1 ∈ Cex.sonarrRun1.searchedSeriesIds then some 1000
        else (Cex.histEmpty 1).lastSearched)) ∧
    ((Cex.radarrRunFail.hist 7).lastSearched =
      (if Cex.radarrEnvFail.moviesSearchOk = true ∧ 7 ∈ Cex.radarrRunFail.toSearch
        then some 1000 else (Cex.histEmpty 7).lastSearched)) := by
  have h1 := c6_lastSearched_iff_dispatch.1 Cex.lidarrCfg1 Cex.lidarrEnvMiss
    Cex.histEmpty 1000 Cex.twoDoneArtists Cex.c8WitRun rfl
  have h2 := c6_lastSearched_iff_dispatch.2.1 Cex.sonarrCfg Cex.sonarrEnv
    Cex.histEmpty 1000 Cex.sonarrSeries Cex.sonarrRun1 rfl
  have h3 := c6_lastSearched_iff_dispatch.2.2 Cex.radarrCfg Cex.radarrEnvFail
    Cex.histEmpty 1000 Cex.oneMovie Cex.radarrRunFail rfl
  exact ⟨⟨h1.1 1, by decide, h1.2 1 (by decide)⟩, h2.1 1, h3 7⟩

/-- C7: in the promotion phase of the capped (lidarr) engine, the cap is
applied to the already-shuffled candidate order: the writes of a capped
Phase A are exactly the first `effCap` writes that the uncapped phase
would perform on the same order.  Consequently the capped subset follows
the shuffle: on the concrete two-candidate input with cap 1, the identity
order promotes artist 1 while the reversed order promotes artist 2. -/
theorem c7_shuffle_before_cap :
    (∀ (cfg : Lidarr.Config) (env : Lidarr.Env) (missIds : List Int)
        (order : List Lidarr.Artist) (s s2 : Lidarr.AState),
      Lidarr.phaseAGo cfg env missIds
        { bt := env.backendTags, flipped := 0, writes := [] } order = .ok s →
      Lidarr.phaseANoCapGo cfg env missIds
        { bt := env.backendTags, flipped := 0, writes := [] } order = .ok s2 →
      s.writes = s2.writes.take (Arr.effCap cfg.searchToDoneMax)) ∧
    (Cex.writesOf (Lidarr.phaseAGo Cex.lidarrCfg1 Cex.lidarrEnvOk []
      Cex.c7Init Cex.twoSearchArtists)).map Prod.fst = [1] ∧
    (Cex.writesOf (Lidarr.phaseAGo Cex.lidarrCfg1 Cex.lidarrEnvOk []
      Cex.c7Init Cex.twoSearchArtists.reverse)).map Prod.fst = [2] := by
  refine ⟨?_, by decide, by decide⟩
  intro cfg env missIds order s s2 h h2
  have := Lidarr.phaseAGo_writes_take order
    { bt := env.backendTags, flipped := 0, writes := [] } s s2 h h2 (Nat.zero_le _)
  simpa using this

/-- C7 witness: the concrete capped Phase A writes equal the uncapped
writes truncated at the cap. -/
theorem c7_witness :
    (Cex.stateOf (Lidarr.phaseAGo Cex.lidarrCfg1 Cex.lidarrEnvOk []
      Cex.c7Init Cex.twoSearchArtists)).writes =
      (Cex.stateOf (Lidarr.phaseANoCapGo Cex.lidarrCfg1 Cex.lidarrEnvOk []
        Cex.c7Init Cex.twoSearchArtists)).writes.take
        (Arr.effCap Cex.lidarrCfg1.searchToDoneMax) :=
  c7_shuffle_before_cap.1 Cex.lidarrCfg1 Cex.lidarrEnvOk [] Cex.twoSearchArtists
    _ _ rfl rfl

/-- C8 counterexample: with the recheck cap configured to 1, two
DONE-tagged missing artists with no prior `lastRecheckAt`, and an
identity shuffle, the run stamps artist 1 but leaves artist 2's
`lastRecheckAt` absent, so it is not true that every such item has
`lastRecheckAt` set after one run. -/
theorem c8_counterexample :
    Lidarr.run Cex.lidarrCfg2 Cex.lidarrEnvMiss Cex.histEmpty 1000
      Cex.twoDoneArtists = .ok Cex.c8Run ∧
    Cex.lidarrCfg2.tagDoneId ∈ (Cex.twoDoneArtists.get ⟨1, by decide⟩).tags ∧
    Lidarr.missing_artist_ids Cex.lidarrEnvMiss.fetchPage
      Cex.lidarrCfg2.wantedMaxPages Cex.lidarrCfg2.wantedPageSize =
      some [1, 2] ∧
    (Cex.histEmpty 2).lastRecheck = none ∧
    2 ∈ Cex.c8Run.eligIds ∧
    (Cex.c8Run.hist 2).lastRecheck = none ∧
    (Cex.c8Run.hist 1).lastRecheck = some 1000 :=
  ⟨rfl, by decide, rfl, rfl, by decide, by decide, by decide⟩

/-- C8 (amended): a DONE-tagged missing item with no prior
`lastRecheckAt` always passes the cooldown gate — it appears in the
eligible list — and, provided it is among the items actually considered
this run (i.e. within `RECHECK_CAP` after the shuffle), its
`lastRecheckAt` is set to the run's timestamp. -/
theorem c8_amended :
    ∀ (cfg : Lidarr.Config) (env : Lidarr.Env) (hist0 : Arr.Hist) (now : Nat)
      (artists : List Lidarr.Artist) (r : Lidarr.RunResult)
      (a : Lidarr.Artist) (aid : Int) (missIds : List Int),
      Lidarr.run cfg env hist0 now artists = .ok r →
      Lidarr.missing_artist_ids env.fetchPage cfg.wantedMaxPages
        cfg.wantedPageSize = some missIds →
      a ∈ artists → cfg.tagDoneId ∈ a.tags →
      Arr.resolveLidarrId a.rid = .ok aid → 0 < aid → aid ∈ missIds →
      (hist0 aid).lastRecheck = none →
      aid ∈ r.eligIds ∧
      (aid ∈ r.consideredIds → (r.hist aid).lastRecheck = some now) := by
  intro cfg env hist0 now artists r a aid missIds hr hor ha htag hres hpos hm hnone
  rcases Lidarr.lidarr_run_ok_elim hr with
    ⟨hnog, _⟩ | ⟨missIds2, aSt, eSt, hor2, hA, hE, _, _, _, _, helig, hb⟩
  · rw [hnog] at hor
    cases hor
  · have hmiss2 : missIds2 = missIds := by
      rw [hor2] at hor
      exact Option.some.inj hor
    subst hmiss2
    rcases hb with ⟨_, _, hcons, _, hhist, _⟩
    have hmemf : a ∈ artists.filter (fun b => cfg.tagDoneId ∈ b.tags) :=
      List.mem_filter.mpr ⟨ha, by simpa using htag⟩
    have hgate : (Arr.should_recheck (hist0 aid).lastRecheck
        cfg.recheckHours now).1 = false := by
      rw [hnone]
      rfl
    have helig2 := Lidarr.eligGo_mem_complete _ _ _ hE a hmemf aid hres hpos hm hgate
    constructor
    · rw [helig]
      exact helig2
    · intro hconsidered
      rw [hhist]
      rw [hcons] at hconsidered
      exact Lidarr.consideredGo_recheck_stamp _ _
        (fun j hj => absurd hj (List.not_mem_nil j)) aid hconsidered

/-- C8 (amended) witness: with the recheck cap at 20, artist 2 is
eligible, considered, and stamped at the run time. -/
theorem c8_amended_witness :
    2 ∈ Cex.c8WitRun.eligIds ∧ 2 ∈ Cex.c8WitRun.consideredIds ∧
    (Cex.c8WitRun.hist 2).lastRecheck = some 1000 := by
  have h := c8_amended Cex.lidarrCfg1 Cex.lidarrEnvMiss Cex.histEmpty 1000
    Cex.twoDoneArtists Cex.c8WitRun { rid := Arr.RawId.num 2, tags := [2] } 2
    [1, 2] rfl rfl (by decide) (by decide) rfl (by decide) (by decide) rfl
  exact ⟨h.1, by decide, h.2 (by decide)⟩

/-- C9 counterexample: the radarr engine applies no positivity guard — a
movie whose id resolves to 0 (not a positive integer) is considered,
stamped and searched rather than dropped — and an id the scripts cannot
parse as an integer aborts the whole lidarr run rather than being
dropped silently. -/
theorem c9_counterexample :
    Radarr.run Cex.radarrCfg Cex.radarrEnv Cex.histEmpty 1000 Cex.zeroIdMovie =
      .ok Cex.c9Run ∧
    Arr.resolveStrictId (Arr.RawId.num 0) = .ok 0 ∧
    ¬(0 : Int) > 0 ∧
    (Cex.c9Run.hist 0).lastRecheck = some 1000 ∧
    (Cex.c9Run.hist 0).lastSearched = some 1000 ∧
    Cex.c9Run.searched = 1 ∧
    Lidarr.run Cex.lidarrCfg1 Cex.lidarrEnvOk Cex.histEmpty 1000
      Cex.badArtistList = .error () :=
  ⟨rfl, rfl, by decide, by decide, by decide, by decide, rfl⟩

/-- C9 (amended): only the lidarr engine drops non-positive ids, and only
ids that resolve to an integer: inserting an artist whose id resolves to
a non-positive integer anywhere into the Phase A order leaves the phase's
behavior completely unchanged, while an artist whose id fails integer
parsing aborts the run with an uncaught error as soon as it is reached
below the cap.  (Sonarr and radarr apply no positivity guard at all, as
the counterexample shows.) -/
theorem c9_amended :
    (∀ (cfg : Lidarr.Config) (env : Lidarr.Env) (missIds : List Int)
        (x : Lidarr.Artist) (n : Int) (xs ys : List Lidarr.Artist)
        (st : Lidarr.AState),
      Arr.resolveLidarrId x.rid = .ok n → n ≤ 0 →
      Lidarr.phaseAGo cfg env missIds st (xs ++ x :: ys) =
        Lidarr.phaseAGo cfg env missIds st (xs ++ ys)) ∧
    (∀ (cfg : Lidarr.Config) (env : Lidarr.Env) (missIds : List Int)
        (x : Lidarr.Artist) (st : Lidarr.AState) (l : List Lidarr.Artist),
      Arr.resolveLidarrId x.rid = .error () →
      st.flipped < Arr.effCap cfg.searchToDoneMax →
      Lidarr.phaseAGo cfg env missIds st (x :: l) = .error ()) :=
  ⟨fun _ _ _ _ _ xs ys st hres hn =>
    Lidarr.phaseAGo_drop_nonpos hres hn xs ys st,
   fun _ _ _ _ _ l hres hcap =>
    Lidarr.phaseAGo_abort_of_bad hres hcap l⟩

/-- C9 (amended) witness: prepending an id-0 artist changes nothing, and
an unparseable id makes Phase A return an error. -/
theorem c9_amended_witness :
    Arr.resolveLidarrId (Arr.RawId.num 0) = .ok 0 ∧ (0 : Int) ≤ 0 ∧
    Lidarr.phaseAGo Cex.lidarrCfg1 Cex.lidarrEnvOk [] Cex.c7Init
      ([] ++ { rid := Arr.RawId.num 0, tags := [1] } :: Cex.twoSearchArtists) =
      Lidarr.phaseAGo Cex.lidarrCfg1 Cex.lidarrEnvOk [] Cex.c7Init
        ([] ++ Cex.twoSearchArtists) ∧
    Arr.resolveLidarrId Arr.RawId.bad = .error () ∧
    Cex.c7Init.flipped < Arr.effCap Cex.lidarrCfg1.searchToDoneMax ∧
    Lidarr.phaseAGo Cex.lidarrCfg1 Cex.lidarrEnvOk [] Cex.c7Init
      ({ rid := Arr.RawId.bad, tags := [1] } :: Cex.twoSearchArtists) =
      .error () :=
  ⟨rfl, le_rfl,
   c9_amended.1 Cex.lidarrCfg1 Cex.lidarrEnvOk []
     { rid := Arr.RawId.num 0, tags := [1] } 0 [] Cex.twoSearchArtists
     Cex.c7Init rfl le_rfl,
   rfl, by decide,
   c9_amended.2 Cex.lidarrCfg1 Cex.lidarrEnvOk []
     { rid := Arr.RawId.bad, tags := [1] } Cex.c7Init Cex.twoSearchArtists
     rfl (by decide)⟩

/-- C10 counterexample: a configured cap of 0 does not make the run
behave as if the cap were unbounded — it substitutes the sentinel
`10 ^ 9`: on `10 ^ 9 + 1` promotable artists, the run with the promotion
cap configured to 0 flips exactly `10 ^ 9` of them, while the genuinely
uncapped phase flips all `10 ^ 9 + 1`. -/
theorem c10_counterexample :
    Cex.c10Cfg.searchToDoneMax = 0 ∧
    Cex.flippedOf (Lidarr.phaseAGo Cex.c10Cfg Cex.lidarrEnvOk [] Cex.c7Init
      (Cex.c10ItemsFrom 0 (10 ^ 9 + 1))) = 10 ^ 9 ∧
    Cex.flippedOf (Lidarr.phaseANoCapGo Cex.c10Cfg Cex.lidarrEnvOk [] Cex.c7Init
      (Cex.c10ItemsFrom 0 (10 ^ 9 + 1))) = 10 ^ 9 + 1 := by
  have h0 : Cex.c7Init.flipped = 0 := rfl
  refine ⟨rfl, ?_, ?_⟩
  · rcases c10_flip_count (10 ^ 9 + 1) 0 Cex.c7Init (fun m _ => rfl) with
      ⟨st', hrun, hflip⟩
    rw [hrun]
    dsimp only [Cex.flippedOf]
    rw [hflip, h0, Nat.sub_zero, Nat.zero_add, Nat.min_eq_left (Nat.le_succ _)]
  · rcases c10_noCap_count (10 ^ 9 + 1) 0 Cex.c7Init (fun m _ => rfl) with
      ⟨st', hrun, hflip⟩
    rw [hrun]
    dsimp only [Cex.flippedOf]
    rw [hflip, h0, Nat.zero_add]

/-- C10 (amended): a configured cap of zero or less is replaced by a
large sentinel (`10 ^ 9` items, `10 ^ 12` sub-units), so a run whose
candidate volume stays below the sentinel behaves exactly like the
genuinely uncapped reference loop — effectively unbounded, and never
"zero actions" — in all four capped loops (lidarr promotion, lidarr
recheck/search, sonarr recheck/search with episode budget, radarr
recheck/search). -/
theorem c10_amended :
    (∀ (cfg : Lidarr.Config) (env : Lidarr.Env) (missIds : List Int)
        (l : List Lidarr.Artist) (st : Lidarr.AState),
      cfg.searchToDoneMax ≤ 0 → st.flipped + l.length ≤ 10 ^ 9 →
      Lidarr.phaseAGo cfg env missIds st l =
        Lidarr.phaseANoCapGo cfg env missIds st l) ∧
    (∀ (cfg : Lidarr.Config) (env : Lidarr.Env) (now : Nat) (l : List Int)
        (st : Lidarr.BState),
      cfg.doneRecheckMax ≤ 0 → cfg.doneSearchMax ≤ 0 →
      st.considered + l.length ≤ 10 ^ 9 → st.searched + l.length ≤ 10 ^ 9 →
      Lidarr.consideredGo cfg env now st l =
        Lidarr.consideredNoCapGo env now st l) ∧
    (∀ (cfg : Sonarr.Config) (env : Sonarr.Env) (now : Nat)
        (l : List Sonarr.Series) (st : Sonarr.BState),
      cfg.recheckMaxSeries ≤ 0 → cfg.searchMaxSeries ≤ 0 →
      cfg.searchMaxEps ≤ 0 →
      st.rechecked + l.length ≤ 10 ^ 9 →
      st.searchedSeries + l.length ≤ 10 ^ 9 →
      st.searchedEps + Sonarr.epsBudget env now l ≤ 10 ^ 12 →
      Sonarr.doneGo cfg env now st l = Sonarr.doneNoCapGo cfg env now st l) ∧
    (∀ (cfg : Radarr.Config) (now : Nat) (l : List Radarr.Movie)
        (st : Radarr.BState),
      cfg.recheckMax ≤ 0 → cfg.searchMax ≤ 0 →
      st.considered + l.length ≤ 10 ^ 9 →
      st.toSearch.length + l.length ≤ 10 ^ 9 →
      Radarr.loopGo cfg now st l = Radarr.loopNoCapGo cfg now st l) :=
  ⟨fun _ _ _ l st h1 h2 => Lidarr.phaseAGo_noCap_agree h1 l st h2,
   fun _ _ _ l st h1 h2 h3 h4 => Lidarr.consideredGo_noCap_agree h1 h2 l st h3 h4,
   fun _ _ _ l st h1 h2 h3 h4 h5 h6 =>
     Sonarr.doneGo_noCap_agree h1 h2 h3 l st h4 h5 h6,
   fun _ _ l st h1 h2 h3 h4 => Radarr.loopGo_noCap_agree h1 h2 l st h3 h4⟩

/-- C10 (amended) witness: on small concrete inputs with every cap
configured to 0, each capped loop coincides with its uncapped
counterpart. -/
theorem c10_amended_witness :
    Cex.c10Cfg.searchToDoneMax ≤ 0 ∧
    Cex.c7Init.flipped + Cex.twoSearchArtists.length ≤ 10 ^ 9 ∧
    Lidarr.phaseAGo Cex.c10Cfg Cex.lidarrEnvOk [] Cex.c7Init
      Cex.twoSearchArtists =
      Lidarr.phaseANoCapGo Cex.c10Cfg Cex.lidarrEnvOk [] Cex.c7Init
        Cex.twoSearchArtists ∧
    Lidarr.consideredGo Cex.c10Cfg Cex.lidarrEnvOk 1000
      { hist := Cex.histEmpty, considered := 0, searched := 0
        consideredIds := [], searchedIds := [] } [1, 2] =
      Lidarr.consideredNoCapGo Cex.lidarrEnvOk 1000
        { hist := Cex.histEmpty, considered := 0, searched := 0
          consideredIds := [], searchedIds := [] } [1, 2] ∧
    Sonarr.doneGo Cex.sonarrCfg0 Cex.sonarrEnv 1000
      { hist := Cex.histEmpty, waitSkipped := 0, rechecked := 0
        searchedSeries := 0, searchedEps := 0, dispatchedEps := 0
        recheckedIds := [], searchedSeriesIds := [] }
      [{ rid := Arr.RawId.num 1, tags := [2] }] =
      Sonarr.doneNoCapGo Cex.sonarrCfg0 Cex.sonarrEnv 1000
        { hist := Cex.histEmpty, waitSkipped := 0, rechecked := 0
          searchedSeries := 0, searchedEps := 0, dispatchedEps := 0
          recheckedIds := [], searchedSeriesIds := [] }
        [{ rid := Arr.RawId.num 1, tags := [2] }] ∧
    Radarr.loopGo Cex.radarrCfg0 1000
      { hist := Cex.histEmpty, waitSkipped := 0, considered := 0
        toSearch := [] } Cex.oneMovie =
      Radarr.loopNoCapGo Cex.radarrCfg0 1000
        { hist := Cex.histEmpty, waitSkipped := 0, considered := 0
          toSearch := [] } Cex.oneMovie :=
  ⟨le_rfl, by decide,
   c10_amended.1 Cex.c10Cfg Cex.lidarrEnvOk [] Cex.twoSearchArtists Cex.c7Init
     le_rfl (by decide),
   c10_amended.2.1 Cex.c10Cfg Cex.lidarrEnvOk 1000 [1, 2] _ le_rfl le_rfl
     (by decide) (by decide),
   c10_amended.2.2.1 Cex.sonarrCfg0 Cex.sonarrEnv 1000
     [{ rid := Arr.RawId.num 1, tags := [2] }] _ le_rfl le_rfl le_rfl
     (by decide) (by decide) (by decide),
   c10_amended.2.2.2 Cex.radarrCfg0 1000 Cex.oneMovie _ le_rfl le_rfl
     (by decide) (by decide)⟩
